import Mathlib

/-!
Shallow embedding of the FrogFS record filesystem (src/src/frogfs.c) together
with the storage semantics of the file-backed adapter
(src/src/storage/stdio/file_storage.c), specialised to a fixed-size medium:
the medium is a byte array of a fixed length, reads and writes succeed iff
they lie entirely inside the medium, and the cursor may be positioned
anywhere.  Machine integers are modelled as `Nat` with explicit `% 256` /
`% 65536` at the points where the C code truncates to `uint8_t` / `uint16_t`.
Unbounded C loops are modelled with an explicit fuel parameter; the fuel
passed by the top-level entry points is large enough for every terminating
run, and all theorems below are about runs in which the fuel is not
exhausted.
-/

namespace FrogFS

/-- `t_e_frogfs_error` (src/src/frogfs_enums.h). -/
inductive Ferr where
  | ok
  | nullPointer
  | ioError
  | notFormatted
  | invalidRecord
  | nospace
  | notWritable
  | notReadable
  | invalidOperation
  | outOfRange
deriving DecidableEq

/-- The storage adapter state: the medium contents and the file cursor. -/
structure Storage where
  mem : List Nat
  pos : Nat
deriving DecidableEq

/-- `storage_size`. -/
def storage_size (st : Storage) : Nat := st.mem.length

/-- `storage_seek` (fseek SEEK_SET: any non-negative offset succeeds). -/
def storage_seek (st : Storage) (off : Nat) : Ferr × Storage :=
  (Ferr.ok, { st with pos := off })

/-- `storage_advance` (fseek SEEK_CUR forward). -/
def storage_advance (st : Storage) (n : Nat) : Ferr × Storage :=
  (Ferr.ok, { st with pos := st.pos + n })

/-- `storage_backtrack` (fseek SEEK_CUR backward; a negative resulting
offset is rejected by fseek). -/
def storage_backtrack (st : Storage) (n : Nat) : Ferr × Storage :=
  if n ≤ st.pos then (Ferr.ok, { st with pos := st.pos - n }) else (Ferr.ioError, st)

/-- `storage_pos` (ftell). -/
def storage_pos (st : Storage) : Ferr × Nat := (Ferr.ok, st.pos)

/-- `storage_end_of_storage`: ok iff the size is zero or the cursor is at
the last addressable byte. -/
def storage_end_of_storage (st : Storage) : Ferr :=
  if st.mem.length = 0 ∨ st.pos = st.mem.length - 1 then Ferr.ok else Ferr.ioError

/-- `storage_read` on a fixed-size medium: the read succeeds iff it lies
entirely inside the medium and then advances the cursor; on failure the
state is unchanged and no bytes are produced (the C caller's buffer keeps
its previous contents, which the embedding mirrors by threading the old
buffer at every call site).  Bytes are reduced `% 256` because the medium
holds `uint8_t`. -/
def storage_read (st : Storage) (n : Nat) : Ferr × Storage × List Nat :=
  if st.pos + n ≤ st.mem.length then
    (Ferr.ok, { st with pos := st.pos + n },
      ((st.mem.drop st.pos).take n).map (fun b => b % 256))
  else (Ferr.ioError, st, [])

/-- Overwrite `mem` at offset `p` with the bytes of `l` (truncated to
`uint8_t`). -/
def storeBytes (mem : List Nat) (p : Nat) (l : List Nat) : List Nat :=
  mem.take p ++ l.map (fun b => b % 256) ++ mem.drop (p + l.length)

/-- `storage_write` on a fixed-size medium: succeeds iff the write lies
entirely inside the medium. -/
def storage_write (st : Storage) (l : List Nat) : Ferr × Storage :=
  if st.pos + l.length ≤ st.mem.length then
    (Ferr.ok, { mem := storeBytes st.mem st.pos l, pos := st.pos + l.length })
  else (Ferr.ioError, st)

/-- One entry of `frogfs_RAM` (`t_s_frogfsram_record`, src/src/frogfs.h). -/
structure FRec where
  offset : Nat
  work_reg_1 : Nat
  work_reg_2 : Nat
  write_offset : Nat
deriving DecidableEq

instance : Inhabited FRec := ⟨⟨0, 0, 0, 0⟩⟩

/-- Whole filesystem state: the in-RAM directory plus the storage. -/
structure FS where
  ram : List FRec
  st : Storage
deriving DecidableEq

def FROGFS_MAX_RECORD_COUNT : Nat := 32
def FROGFS_MAX_RECORD_SIZE : Nat := 32 * 1024
def FROGFS_SIGNATURE : Nat := 0x66594C53
def FROGFS_VERSION : Nat := 1

/-- `FROGFS_RECORD_INDEX_OFFSET(x) = x + 1`. -/
def FROGFS_RECORD_INDEX_OFFSET (x : Nat) : Nat := x + 1

/-- `FROGFS_RECORD_INDEX(x) = ((x & ~0x80U) - 1U)` truncated to `uint8_t`:
for a byte `x`, clearing bit 7 gives `x % 256 % 128`, and the unsigned
subtraction of 1 truncated to eight bits is `(· + 255) % 256`. -/
def FROGFS_RECORD_INDEX (x : Nat) : Nat := (x % 256 % 128 + 255) % 256

/-- `FROGFS_RECORD_TYPE(x) = (x >> 7) & 1` for a byte `x`. -/
def FROGFS_RECORD_TYPE (x : Nat) : Nat := x % 256 / 128

/-- `FROGFS_RECORD_DATA(x) = (x >> 7) & 1` for a byte `x`. -/
def FROGFS_RECORD_DATA (x : Nat) : Nat := x % 256 / 128

/-- `FROGFS_RECORD_POINTER(x,y,z) = ((y & ~0x80) << 8) | z` for bytes;
the first macro argument is unused by the C macro as well. -/
def FROGFS_RECORD_POINTER (_x y z : Nat) : Nat := y % 256 % 128 * 256 + z % 256

def FROGFS_RECORD_TYPE_NORMAL : Nat := 0
def FROGFS_RECORD_TYPE_FRAGMENT : Nat := 1
def FROGFS_RECORD_DATA_POINTER : Nat := 0
def FROGFS_RECORD_DATA_SIZE : Nat := 1

/-- The five bytes `tmp[0..4]` that `frogfs_format` writes at offset 0:
the signature little-endian, then the version byte. -/
def magicBytes : List Nat :=
  [FROGFS_SIGNATURE % 256, FROGFS_SIGNATURE / 256 % 256,
   FROGFS_SIGNATURE / 65536 % 256, FROGFS_SIGNATURE / 16777216 % 256,
   FROGFS_VERSION]

/-- The erase loop of `frogfs_format`: write blocks of up to 16 zero bytes
while the remaining `disk_size` is positive. -/
def formatEraseLoop : Nat → Storage → Nat → Ferr × Storage
  | 0, st, _ => (Ferr.ioError, st)
  | fuel + 1, st, disk_size =>
    let to_write := if disk_size ≥ 16 then 16 else disk_size
    let r := storage_write st (List.replicate to_write 0)
    let disk_size2 := disk_size - to_write
    if r.1 = Ferr.ok ∧ disk_size2 > 0 then formatEraseLoop fuel r.2 disk_size2
    else (r.1, r.2)

theorem formatEraseLoop_succ (fuel : Nat) (st : Storage) (d : Nat) :
    formatEraseLoop (fuel + 1) st d =
      (let to_write := if d ≥ 16 then 16 else d
       let r := storage_write st (List.replicate to_write 0)
       let disk_size2 := d - to_write
       if r.1 = Ferr.ok ∧ disk_size2 > 0 then formatEraseLoop fuel r.2 disk_size2
       else (r.1, r.2)) := rfl

/-- `frogfs_format`. -/
def frogfs_format (st : Storage) : Ferr × Storage :=
  let r0 := storage_seek st 0
  if r0.1 ≠ Ferr.ok then (Ferr.ioError, r0.2)
  else
    let r1 := formatEraseLoop (storage_size r0.2 + 1) r0.2 (storage_size r0.2)
    if r1.1 = Ferr.ok then
      let r2 := storage_seek r1.2 0
      if r2.1 = Ferr.ok then storage_write r2.2 magicBytes
      else (r2.1, r2.2)
    else (r1.1, r1.2)

/-- `frogfs_close`: pure on the directory. -/
def frogfs_close (ram : List FRec) (record : Nat) : Ferr × List FRec :=
  if record < FROGFS_MAX_RECORD_COUNT then
    let rc := ram.getD record default
    if rc.write_offset > 0 then
      (Ferr.ok, ram.set record { rc with write_offset := 0, work_reg_1 := 0, work_reg_2 := 0 })
    else if rc.work_reg_1 > 0 then
      (Ferr.ok, ram.set record { rc with write_offset := 0, work_reg_1 := 0, work_reg_2 := 0 })
    else if rc.offset > 0 then (Ferr.ok, ram)
    else (Ferr.invalidOperation, ram)
  else (Ferr.invalidRecord, ram)

/-- The `for` loop of `frogfs_list`, over the list of remaining indices,
carrying the output buffer, `*file_num` and `list_i`. -/
def listLoop (ram : List FRec) (cap : Nat) :
    List Nat → List Nat → Nat → Nat → List Nat × Nat
  | [], buf, file_num, _ => (buf, file_num)
  | i :: rest, buf, file_num, list_i =>
    if (ram.getD i default).offset ≠ 0 then
      if list_i < cap then listLoop ram cap rest (buf ++ [i]) (file_num + 1) (list_i + 1)
      else listLoop ram cap rest buf file_num (list_i + 1)
    else listLoop ram cap rest buf file_num list_i

/-- `frogfs_list` with a non-null buffer and non-null `file_num`: the
written prefix of the caller's buffer is modelled as the returned list. -/
def frogfs_list (ram : List FRec) (cap : Nat) : Ferr × List Nat × Nat :=
  let r := listLoop ram cap (List.range FROGFS_MAX_RECORD_COUNT) [] 0 0
  (Ferr.ok, r.1, r.2)

/-- The inner one-byte zero-counting loop of `frogfs_find_contiguous_space`
(src/src/frogfs.c lines 432-464).  On a non-zero byte the source resets
`blank_cnt` to 0, backtracks one byte and exits; on a failed read it exits
keeping the counter. -/
def blankLoop : Nat → Storage → Nat → Ferr × Storage × Nat
  | 0, st, blank => (Ferr.ioError, st, blank)
  | fuel + 1, st, blank =>
    let r := storage_read st 1
    if r.1 = Ferr.ok then
      if r.2.2.headD 0 = 0 then blankLoop fuel r.2.1 (blank + 1)
      else
        let r2 := storage_backtrack r.2.1 1
        (r2.1, r2.2, 0)
    else (r.1, r.2.1, blank)

/-- The outer loop of `frogfs_find_contiguous_space`.  The three output
registers are threaded because the C function writes through the caller's
pointers (`*space_start` is updated on every candidate, `*data_start` and
`*data_size` only on success). -/
def findLoop : Nat → Storage → Nat → Nat → Nat → Ferr × Storage × Nat × Nat × Nat
  | 0, st, ss, ds, sz => (Ferr.ioError, st, ss, ds, sz)
  | fuel + 1, st, ss, ds, sz =>
    let r := storage_read st 3
    if r.1 = Ferr.ok then
      let t0 := r.2.2.getD 0 0
      let t1 := r.2.2.getD 1 0
      let t2 := r.2.2.getD 2 0
      if t0 = 0 ∨ t1 = 0 ∨ t2 = 0 then
        let ss2 := r.2.1.pos - 3
        let rb := blankLoop (r.2.1.mem.length + 1) r.2.1 3
        if rb.2.2 ≥ 7 then
          (Ferr.ok, rb.2.1, ss2, ss2 + 3, rb.2.2 - 7)
        else findLoop fuel rb.2.1 ss2 ds sz
      else
        if FROGFS_RECORD_DATA t1 = FROGFS_RECORD_DATA_SIZE then
          let ra := storage_advance r.2.1 (FROGFS_RECORD_POINTER t0 t1 t2)
          findLoop fuel ra.2 ss ds sz
        else findLoop fuel r.2.1 ss ds sz
    else (r.1, r.2.1, ss, ds, sz)

/-- `frogfs_find_contiguous_space`. -/
def frogfs_find_contiguous_space (st : Storage) (ss ds sz : Nat) :
    Ferr × Storage × Nat × Nat × Nat :=
  let r := storage_seek st 5
  findLoop (r.2.mem.length + 2) r.2 ss ds sz

/-- `frogfs_open`. -/
def frogfs_open (fs : FS) (record : Nat) : Ferr × FS :=
  if record < FROGFS_MAX_RECORD_COUNT then
    let rc := fs.ram.getD record default
    if rc.offset > 0 then
      (Ferr.ok, ⟨fs.ram.set record
        { rc with work_reg_1 := 0, work_reg_2 := 0, write_offset := 0 }, fs.st⟩)
    else
      let rf := frogfs_find_contiguous_space fs.st rc.offset rc.write_offset rc.work_reg_1
      let rc2 := { rc with offset := rf.2.2.1, write_offset := rf.2.2.2.1,
                           work_reg_1 := rf.2.2.2.2 }
      let ram2 := fs.ram.set record rc2
      if rf.1 = Ferr.ok then
        let hdr := [FROGFS_RECORD_INDEX_OFFSET record % 256,
                    FROGFS_RECORD_DATA_SIZE * 128, 0]
        let rs := storage_seek rf.2.1 rc2.offset
        if rs.1 = Ferr.ok then
          let rw := storage_write rs.2 hdr
          (rw.1, ⟨ram2, rw.2⟩)
        else (rs.1, ⟨ram2, rs.2⟩)
      else (rf.1, ⟨ram2, rf.2.1⟩)
  else (Ferr.invalidRecord, fs)

/-- The inner metadata-skipping loop of `frogfs_init` (lines 248-261): skip
zero bytes, then backtrack one byte and read a 3-byte metadata word.  The
`tmp` buffer is threaded because the C code inspects `tmp[0]` even after a
failed read (it then holds the previous contents). -/
def initSkipLoop : Nat → Storage → Nat → Nat → Nat → Ferr × Storage × Nat × Nat × Nat
  | 0, st, t0, t1, t2 => (Ferr.ioError, st, t0, t1, t2)
  | fuel + 1, st, t0, t1, t2 =>
    let r := storage_read st 1
    let t0b := if r.1 = Ferr.ok then r.2.2.headD 0 else t0
    if t0b ≠ 0 then
      let rb := storage_backtrack r.2.1 1
      if rb.1 = Ferr.ok then
        let r3 := storage_read rb.2 3
        if r3.1 = Ferr.ok then
          (Ferr.ok, r3.2.1, r3.2.2.getD 0 0, r3.2.2.getD 1 0, r3.2.2.getD 2 0)
        else (r3.1, r3.2.1, t0b, t1, t2)
      else (rb.1, rb.2, t0b, t1, t2)
    else
      if r.1 = Ferr.ok then initSkipLoop fuel r.2.1 t0b t1 t2
      else (r.1, r.2.1, t0b, t1, t2)

/-- The outer boot-scan loop of `frogfs_init` (lines 244-351).  The
`record not supported` branch calls `FROGFS_ASSERT_UNCHECKED`, which
terminates the process via `exit(1)`; it is modelled as an `ioError` stop
(no run verified below reaches it). -/
def initLoop : Nat → Storage → List FRec → Nat → Nat → Nat → Ferr × Storage × List FRec
  | 0, st, ram, _, _, _ => (Ferr.ioError, st, ram)
  | fuel + 1, st, ram, t0, t1, t2 =>
    let rs := initSkipLoop (st.mem.length + 1) st t0 t1 t2
    let st1 := rs.2.1
    let u0 := rs.2.2.1
    let u1 := rs.2.2.2.1
    let u2 := rs.2.2.2.2
    if rs.1 = Ferr.ok then
      let index := FROGFS_RECORD_INDEX u0
      if index > FROGFS_MAX_RECORD_COUNT then (Ferr.outOfRange, st1, ram)
      else
        let pointer := FROGFS_RECORD_POINTER u0 u1 u2
        if FROGFS_RECORD_TYPE u0 = FROGFS_RECORD_TYPE_NORMAL ∧
           FROGFS_RECORD_DATA u1 = FROGFS_RECORD_DATA_SIZE then
          if (ram.getD index default).offset = 0 then
            let ram2 := ram.set index
              { ram.getD index default with offset := st1.pos - 3 }
            let ra := storage_advance st1 pointer
            if ra.1 = Ferr.ok ∧ storage_end_of_storage ra.2 ≠ Ferr.ok then
              initLoop fuel ra.2 ram2 u0 u1 u2
            else (ra.1, ra.2, ram2)
          else (Ferr.outOfRange, st1, ram)
        else if FROGFS_RECORD_TYPE u0 = FROGFS_RECORD_TYPE_FRAGMENT ∧
                FROGFS_RECORD_DATA u1 = FROGFS_RECORD_DATA_POINTER then
          if pointer ≥ st1.mem.length ∨ pointer ≤ 5 then (Ferr.outOfRange, st1, ram)
          else
            let ra := storage_advance st1 pointer
            if ra.1 = Ferr.ok ∧ storage_end_of_storage ra.2 ≠ Ferr.ok then
              initLoop fuel ra.2 ram u0 u1 u2
            else (ra.1, ra.2, ram)
        else if FROGFS_RECORD_TYPE u0 = FROGFS_RECORD_TYPE_FRAGMENT ∧
                FROGFS_RECORD_DATA u1 = FROGFS_RECORD_DATA_SIZE then
          let ra := storage_advance st1 pointer
          if ra.1 = Ferr.ok ∧ storage_end_of_storage ra.2 ≠ Ferr.ok then
            initLoop fuel ra.2 ram u0 u1 u2
          else (ra.1, ra.2, ram)
        else (Ferr.ioError, st1, ram)
    else
      if st1.pos + 3 ≥ st1.mem.length then (Ferr.ok, st1, ram)
      else if storage_end_of_storage st1 ≠ Ferr.ok then initLoop fuel st1 ram u0 u1 u2
      else (Ferr.ok, st1, ram)

/-- `frogfs_init`: clear the directory, check the superblock, then run the
boot scan. -/
def frogfs_init (fs : FS) : Ferr × FS :=
  let ram0 : List FRec := List.replicate FROGFS_MAX_RECORD_COUNT default
  let r0 := storage_seek fs.st 0
  let r1 := storage_read r0.2 5
  if r1.1 = Ferr.ok then
    if r1.2.2 = magicBytes then
      let r2 := initLoop (r1.2.1.mem.length + 2) r1.2.1 ram0
        (r1.2.2.getD 0 0) (r1.2.2.getD 1 0) (r1.2.2.getD 2 0)
      (r2.1, ⟨r2.2.2, r2.2.1⟩)
    else (Ferr.notFormatted, ⟨ram0, r1.2.1⟩)
  else (r1.1, ⟨ram0, r1.2.1⟩)

/-- The block-record update of `frogfs_write` (lines 746-778): rewrite the
3-byte header sitting 3 bytes before the current `write_offset` with the
current `work_reg_2` as payload.  All storage return codes are discarded by
the source. -/
def updateBlock (record : Nat) (fs : FS) : FS :=
  let rc := fs.ram.getD record default
  let hdr := (rc.write_offset + 65533) % 65536
  let r0 := storage_seek fs.st hdr
  let r1 := storage_read r0.2 3
  let a0 := r1.2.2.getD 0 0
  let a1 := r1.2.2.getD 1 0
  if rc.offset = hdr then
    let n1 := (a1 &&& 128) ||| (rc.work_reg_2 / 256 % 256)
    let r2 := storage_seek r1.2.1 hdr
    let r3 := storage_write r2.2 [a0, n1, rc.work_reg_2 % 256]
    ⟨fs.ram, r3.2⟩
  else
    let n0 := (FROGFS_RECORD_TYPE_FRAGMENT * 128) ||| (FROGFS_RECORD_INDEX_OFFSET record % 256)
    let n1 := (FROGFS_RECORD_DATA_SIZE * 128) ||| (rc.work_reg_2 / 256 % 256)
    let r2 := storage_seek r1.2.1 hdr
    let r3 := storage_write r2.2 [n0, n1, rc.work_reg_2 % 256]
    ⟨fs.ram, r3.2⟩

/-- The main loop of `frogfs_write` (lines 651-780), carrying
`written_bytes`, the persistent `update_block_record` flag and the current
`retval`.  The `shall never be zero here` assertion aborts the process via
`exit(1)`; it is modelled as an `ioError` stop (no run verified below
reaches it). -/
def writeLoop (record : Nat) (data : List Nat) (size : Nat) :
    Nat → FS → Nat → Bool → Ferr → Ferr × FS
  | 0, fs, _, _, _ => (Ferr.ioError, fs)
  | fuel + 1, fs, written, update, _retval =>
    let rc := fs.ram.getD record default
    let rsk := storage_seek fs.st ((rc.write_offset + rc.work_reg_2) % 65536)
    let fs := ⟨fs.ram, rsk.2⟩
    if written ≥ size then
      (Ferr.ok, updateBlock record fs)
    else if rc.work_reg_2 < rc.work_reg_1 then
      let ts0 := rc.work_reg_1 - rc.work_reg_2
      let ts1 := if size < ts0 then size else ts0
      let ts := if written ≤ ts1 then ts1 - written else ts1
      if ts > 0 then
        let rw := storage_write fs.st ((data.drop written).take ts)
        if rw.1 ≠ Ferr.ok then
          (rw.1, updateBlock record ⟨fs.ram, rw.2⟩)
        else
          let rc2 := { rc with work_reg_2 := rc.work_reg_2 + ts }
          let fs2 : FS := ⟨fs.ram.set record rc2, rw.2⟩
          let update2 := update || decide (rc2.work_reg_2 ≥ rc2.work_reg_1)
          let fs3 := if update2 then updateBlock record fs2 else fs2
          writeLoop record data size fuel fs3 (written + ts) update2 rw.1
      else (Ferr.ioError, fs)
    else
      let rf := frogfs_find_contiguous_space fs.st 0 0 0
      if rf.1 = Ferr.ok then
        let ss := rf.2.2.1
        let w := [(FROGFS_RECORD_INDEX_OFFSET record % 256) ||| (FROGFS_RECORD_TYPE_FRAGMENT * 128),
                  (FROGFS_RECORD_DATA_POINTER * 128) ||| (ss / 256 % 256), ss % 256]
        let rs := storage_seek rf.2.1 ((rc.work_reg_1 + rc.write_offset) % 65536)
        let rw := if rs.1 = Ferr.ok then storage_write rs.2 w else (rs.1, rs.2)
        let rc2 := { rc with write_offset := rf.2.2.2.1, work_reg_1 := rf.2.2.2.2,
                              work_reg_2 := 0 }
        let fs2 : FS := ⟨fs.ram.set record rc2, rw.2⟩
        let fs3 := updateBlock record fs2
        writeLoop record data size fuel fs3 written true rw.1
      else
        let fs2 : FS := ⟨fs.ram, rf.2.1⟩
        let fs3 := if update then updateBlock record fs2 else fs2
        (Ferr.nospace, fs3)

/-- `frogfs_write`. -/
def frogfs_write (fs : FS) (record : Nat) (data : List Nat) (size : Nat) : Ferr × FS :=
  if record < FROGFS_MAX_RECORD_COUNT ∧ size ≤ FROGFS_MAX_RECORD_SIZE then
    if (fs.ram.getD record default).write_offset = 0 then (Ferr.notWritable, fs)
    else writeLoop record data size (fs.st.mem.length + size + 8) fs 0 false Ferr.ioError
  else (Ferr.invalidRecord, fs)

/-- The byte loop of `frogfs_erase_range`. -/
def eraseWriteLoop : Storage → Nat → Ferr × Storage
  | st, 0 => (Ferr.ok, st)
  | st, n + 1 =>
    let rw := storage_write st [0]
    if rw.1 ≠ Ferr.ok then (rw.1, rw.2)
    else eraseWriteLoop rw.2 n

/-- `frogfs_erase_range`. -/
def frogfs_erase_range (st : Storage) (pos size : Nat) : Ferr × Storage :=
  let rs := storage_seek st pos
  if rs.1 = Ferr.ok then eraseWriteLoop rs.2 size else (rs.1, rs.2)

/-- Overwrite the caller's read buffer at offset `p` with the bytes `l`
(the `&data[*effective_read]` destination of the traversal's read). -/
def storeAt (buf : List Nat) (p : Nat) (l : List Nat) : List Nat :=
  buf.take p ++ l ++ buf.drop (p + l.length)

/-- The header-parsing arm of the traversal loop (`work_reg_1 > 0` and
`work_reg_2 == UINT16_MAX`, src/src/frogfs.c lines 886-961): seek to
`work_reg_1`, read the next metadata word, stop cleanly on an index
mismatch or a non-fragment word, follow size and pointer fragments, and
zero the word when erasing. -/
def traverseHeaderStep (record : Nat) (erase : Bool) (fs : FS) (buf : List Nat)
    (eff size : Nat) : (FS × List Nat × Nat × Nat × Ferr) × Bool × Bool :=
  let rc := fs.ram.getD record default
  let rs := storage_seek fs.st rc.work_reg_1
  let rr := storage_read rs.2 3
  let t0 := rr.2.2.getD 0 0
  let t1 := rr.2.2.getD 1 0
  let t2 := rr.2.2.getD 2 0
  let record_index := FROGFS_RECORD_INDEX t0
  if rr.1 ≠ Ferr.ok then ((⟨fs.ram, rr.2.1⟩, buf, eff, size, rr.1), true, false)
  else if record ≠ record_index then ((⟨fs.ram, rr.2.1⟩, buf, eff, size, rr.1), false, true)
  else if FROGFS_RECORD_TYPE t0 = FROGFS_RECORD_TYPE_FRAGMENT then
    let upd :=
      if FROGFS_RECORD_DATA t1 = FROGFS_RECORD_DATA_SIZE then
        ({ rc with work_reg_1 := rr.2.1.pos,
                   work_reg_2 := FROGFS_RECORD_POINTER t0 t1 t2 }, Ferr.ok)
      else
        ({ rc with work_reg_1 := t1 % 256 * 256 + t2 % 256, work_reg_2 := 65535 }, rr.1)
    let fs2 : FS := ⟨fs.ram.set record upd.1, rr.2.1⟩
    if erase then
      let re := frogfs_erase_range fs2.st (fs2.st.pos - 3) 3
      if re.1 ≠ Ferr.ok then ((⟨fs2.ram, re.2⟩, buf, eff, size, re.1), true, false)
      else ((⟨fs2.ram, re.2⟩, buf, eff, size, re.1), false, false)
    else ((fs2, buf, eff, size, upd.2), false, false)
  else ((⟨fs.ram, rr.2.1⟩, buf, eff, size, rr.1), false, true)

/-- The data-serving arm of the traversal loop (`work_reg_1 > 0`,
lines 962-1024): seek to the data cursor, read
`min(size, work_reg_2)` bytes into the caller's buffer at offset
`*effective_read` (or zero `work_reg_2` bytes when erasing, or transfer
nothing when the caller's pointer is NULL), then advance the per-record
cursor from the storage position and mark the block exhausted with
`0xFFFF` when it reaches zero. -/
def traverseDataStep (record : Nat) (hasBuf erase : Bool) (fs : FS) (buf : List Nat)
    (eff size : Nat) : (FS × List Nat × Nat × Nat × Ferr) × Bool × Bool :=
  let rc := fs.ram.getD record default
  let rs := storage_seek fs.st rc.work_reg_1
  if rs.1 ≠ Ferr.ok then ((⟨fs.ram, rs.2⟩, buf, eff, size, rs.1), true, false)
  else if erase then
    let re := frogfs_erase_range rs.2 rc.work_reg_1 rc.work_reg_2
    let eff2 := (eff + rc.work_reg_2) % 65536
    if re.1 ≠ Ferr.ok then ((⟨fs.ram, re.2⟩, buf, eff2, size, re.1), true, false)
    else
      let wr2b := rc.work_reg_2 - rc.work_reg_2
      let rc2 := { rc with work_reg_1 := re.2.pos,
                           work_reg_2 := if wr2b = 0 then 65535 else wr2b }
      ((⟨fs.ram.set record rc2, re.2⟩, buf, eff2, size, Ferr.ok), false, false)
  else
    let chunk := if size < rc.work_reg_2 then size else rc.work_reg_2
    let rr := if hasBuf then storage_read rs.2 chunk else (rs.1, rs.2, [])
    let buf2 := if hasBuf then storeAt buf eff rr.2.2 else buf
    let eff2 := (eff + chunk) % 65536
    if rr.1 ≠ Ferr.ok then ((⟨fs.ram, rr.2.1⟩, buf2, eff2, size, rr.1), true, false)
    else
      let wr2b := rc.work_reg_2 - chunk
      let rc2 := { rc with work_reg_1 := rr.2.1.pos,
                           work_reg_2 := if wr2b = 0 then 65535 else wr2b }
      ((⟨fs.ram.set record rc2, rr.2.1⟩, buf2, eff2, size, Ferr.ok), false, false)

/-- The first-iteration arm of the traversal loop (`work_reg_1 == 0`,
lines 1025-1052): read the record's primary header, initialise the
per-record cursor, and when erasing zero the header and force
`size = 0xFFFF`. -/
def traverseInitStep (record : Nat) (erase : Bool) (fs : FS) (buf : List Nat)
    (eff size : Nat) : (FS × List Nat × Nat × Nat × Ferr) × Bool × Bool :=
  let rc := fs.ram.getD record default
  let rs := storage_seek fs.st rc.offset
  if rs.1 = Ferr.ok then
    let rr := storage_read rs.2 3
    let upd :=
      if rr.1 = Ferr.ok then
        ({ rc with work_reg_1 := rr.2.1.pos,
                   work_reg_2 := FROGFS_RECORD_POINTER (rr.2.2.getD 0 0)
                     (rr.2.2.getD 1 0) (rr.2.2.getD 2 0) }, Ferr.ok)
      else (rc, rr.1)
    let ram2 := fs.ram.set record upd.1
    if erase then
      let re := frogfs_erase_range rr.2.1 rc.offset 3
      ((⟨ram2, re.2⟩, buf, eff, 65535, re.1), false, false)
    else ((⟨ram2, rr.2.1⟩, buf, eff, size, upd.2), false, false)
  else ((⟨fs.ram, rs.2⟩, buf, eff, size, rs.1), false, false)

/-- One iteration of the traversal loop of `frogfs_traverse`
(lines 884-1053), dispatching on the per-record registers.  Returns the
new state (storage, directory, caller buffer, `*effective_read`, the
possibly rewritten `size` argument, and `retval`) together with the
`io_error` and `exit_loop` flags. -/
def traverseStep (record : Nat) (hasBuf erase : Bool) (fs : FS) (buf : List Nat)
    (eff size : Nat) (_retval : Ferr) :
    (FS × List Nat × Nat × Nat × Ferr) × Bool × Bool :=
  let rc := fs.ram.getD record default
  if rc.work_reg_1 > 0 ∧ rc.work_reg_2 = 65535 then
    traverseHeaderStep record erase fs buf eff size
  else if rc.work_reg_1 > 0 then
    traverseDataStep record hasBuf erase fs buf eff size
  else
    traverseInitStep record erase fs buf eff size

/-- The traversal loop: iterate `traverseStep` while
`*effective_read < size` and neither flag is set. -/
def traverseLoop (record : Nat) (hasBuf erase : Bool) :
    Nat → FS → List Nat → Nat → Nat → Ferr → Ferr × FS × List Nat × Nat
  | 0, fs, buf, eff, _, _ => (Ferr.ioError, fs, buf, eff)
  | fuel + 1, fs, buf, eff, size, rv =>
    let r := traverseStep record hasBuf erase fs buf eff size rv
    let fs2 := r.1.1
    let buf2 := r.1.2.1
    let eff2 := r.1.2.2.1
    let size2 := r.1.2.2.2.1
    let rv2 := r.1.2.2.2.2
    if eff2 < size2 ∧ r.2.1 = false ∧ r.2.2 = false then
      traverseLoop record hasBuf erase fuel fs2 buf2 eff2 size2 rv2
    else (rv2, fs2, buf2, eff2)

/-- `frogfs_traverse`.  The caller's data pointer is modelled by the flag
`hasBuf` (`data != NULL`) plus the buffer contents `buf`; `*effective_read`
is the returned `Nat`. -/
def frogfs_traverse (fs : FS) (record : Nat) (hasBuf : Bool) (buf : List Nat)
    (size : Nat) (erase : Bool) : Ferr × FS × List Nat × Nat :=
  if record < FROGFS_MAX_RECORD_COUNT ∧ size ≤ FROGFS_MAX_RECORD_SIZE then
    if (fs.ram.getD record default).write_offset ≠ 0 then
      (Ferr.notReadable, fs, buf, 0)
    else
      traverseLoop record hasBuf erase (fs.st.mem.length + size + 16) fs buf 0 size
        Ferr.ioError
  else (Ferr.invalidRecord, fs, buf, 0)

/-- `frogfs_read`. -/
def frogfs_read (fs : FS) (record : Nat) (hasBuf : Bool) (buf : List Nat)
    (size : Nat) : Ferr × FS × List Nat × Nat :=
  frogfs_traverse fs record hasBuf buf size false

/-- `frogfs_erase`. -/
def frogfs_erase (fs : FS) (record : Nat) : Ferr × FS :=
  let ro := frogfs_open fs record
  if ro.1 = Ferr.ok then
    let rt := frogfs_traverse ro.2 record false [] 0 true
    if rt.1 = Ferr.ok then
      let rc := frogfs_close rt.2.1.ram record
      let slot := rc.2.getD record default
      (rc.1, ⟨rc.2.set record { slot with offset := 0 }, rt.2.1.st⟩)
    else (rt.1, rt.2.1)
  else (ro.1, ro.2)

/-! ### List positioning lemmas -/

theorem take_app (A B : List Nat) (n : Nat) :
    (A ++ B).take (A.length + n) = A ++ B.take n := by
  induction A with
  | nil => simp
  | cons a A ih => simpa [Nat.succ_add] using ih

theorem drop_app (A B : List Nat) (n : Nat) :
    (A ++ B).drop (A.length + n) = B.drop n := by
  induction A with
  | nil => simp
  | cons a A ih => simpa [Nat.succ_add] using ih

theorem take_app_self (A B : List Nat) : (A ++ B).take A.length = A := by
  simpa using take_app A B 0

theorem drop_app_self (A B : List Nat) : (A ++ B).drop A.length = B := by
  simpa using drop_app A B 0

theorem storeBytes_at (A B : List Nat) (l : List Nat) :
    storeBytes (A ++ B) A.length l =
      A ++ l.map (fun b => b % 256) ++ B.drop l.length := by
  simp [storeBytes, take_app_self, drop_app]

theorem storeBytes_length (mem l : List Nat) (p : Nat) (h : p + l.length ≤ mem.length) :
    (storeBytes mem p l).length = mem.length := by
  simp only [storeBytes, List.length_append, List.length_take, List.length_map,
    List.length_drop]
  omega

theorem storage_read_at (A B : List Nat) (n : Nat) (h : n ≤ B.length) :
    storage_read ⟨A ++ B, A.length⟩ n =
      (Ferr.ok, ⟨A ++ B, A.length + n⟩, (B.take n).map (fun b => b % 256)) := by
  have hle : A.length + n ≤ (A ++ B).length := by simp; omega
  simp [storage_read, hle, h, drop_app_self]

theorem storage_write_at (A B : List Nat) (l : List Nat) (h : l.length ≤ B.length) :
    storage_write ⟨A ++ B, A.length⟩ l =
      (Ferr.ok, ⟨A ++ l.map (fun b => b % 256) ++ B.drop l.length, A.length + l.length⟩) := by
  have hle : A.length + l.length ≤ (A ++ B).length := by simp; omega
  simp [storage_write, hle, h, storeBytes_at]

/-! ### Characterisation of `frogfs_format` -/

theorem formatEraseLoop_spec : ∀ (fuel : Nat) (mem : List Nat) (p d : Nat),
    p + d = mem.length → d ≤ 16 * fuel →
    formatEraseLoop (fuel + 1) ⟨mem, p⟩ d =
      (Ferr.ok, ⟨mem.take p ++ List.replicate d 0, mem.length⟩) := by
  have base : ∀ (mem : List Nat) (p : Nat) (fuel : Nat), p = mem.length →
      formatEraseLoop (fuel + 1) ⟨mem, p⟩ 0 =
        (Ferr.ok, ⟨mem.take p ++ List.replicate 0 0, mem.length⟩) := by
    intro mem p fuel hp
    have hw := storage_write_at (mem.take p) (mem.drop p) [] (by simp)
    simp only [List.take_append_drop] at hw
    have hlp : (mem.take p).length = p := by simp; omega
    rw [hlp] at hw
    rw [formatEraseLoop_succ]
    dsimp only
    rw [if_neg (by omega : ¬ (16 ≤ 0)), List.replicate_zero, hw]
    simp [hp]
  intro fuel
  induction fuel with
  | zero =>
    intro mem p d hp hd
    have hd0 : d = 0 := by omega
    subst hd0
    exact base mem p 0 (by omega)
  | succ f ih =>
    intro mem p d hp hd
    by_cases hdz : d = 0
    · subst hdz
      exact base mem p (f + 1) (by omega)
    · have hsplit : mem = mem.take p ++ mem.drop p := (List.take_append_drop p mem).symm
      have hlp : (mem.take p).length = p := by simp; omega
      by_cases h16 : (16 : Nat) ≤ d
      · -- write a full 16-byte block
        have hw : storage_write ⟨mem, p⟩ (List.replicate 16 0) =
            (Ferr.ok, ⟨mem.take p ++ List.replicate 16 0 ++ (mem.drop p).drop 16,
              p + 16⟩) := by
          have h2 := storage_write_at (mem.take p) (mem.drop p) (List.replicate 16 0)
            (by simp; omega)
          rw [hlp] at h2
          rw [← hsplit] at h2
          simpa using h2
        rw [formatEraseLoop_succ]
        dsimp only
        rw [if_pos (ge_iff_le.mpr h16), hw]
        dsimp only
        by_cases hrest : d - 16 = 0
        · -- the block ends exactly at the medium's end
          have hdrop : (mem.drop p).drop 16 = [] := by
            apply List.eq_nil_of_length_eq_zero
            simp only [List.length_drop]
            omega
          rw [if_neg (fun hc => absurd hc.2 (by omega))]
          rw [hdrop]
          have hrepl : List.replicate d (0 : Nat) = List.replicate 16 0 := by
            rw [show d = 16 from by omega]
          rw [hrepl]
          simp [show p + 16 = mem.length from by omega]
        · -- recurse on the remainder
          have hgt : d - 16 > 0 := by omega
          rw [if_pos ⟨rfl, hgt⟩]
          have hrec := ih (mem.take p ++ List.replicate 16 0 ++ (mem.drop p).drop 16)
            (p + 16) (d - 16)
            (by simp only [List.length_append, List.length_replicate, List.length_drop,
                  hlp]; omega)
            (by omega)
          have htake : (mem.take p ++ List.replicate 16 0 ++ (mem.drop p).drop 16).take
              (p + 16) = mem.take p ++ List.replicate 16 0 := by
            have h1 : (mem.take p ++ List.replicate 16 0).length = p + 16 := by
              simp only [List.length_append, List.length_replicate, hlp]
            have h2 := take_app_self (mem.take p ++ List.replicate 16 0)
              ((mem.drop p).drop 16)
            rw [h1] at h2
            exact h2
          rw [htake] at hrec
          have hmem2 : (mem.take p ++ List.replicate 16 0 ++ (mem.drop p).drop 16).length
              = mem.length := by
            simp only [List.length_append, List.length_replicate, List.length_drop, hlp]
            omega
          rw [hrec, hmem2]
          have hjoin : mem.take p ++ List.replicate 16 0 ++ List.replicate (d - 16) 0
              = mem.take p ++ List.replicate d 0 := by
            rw [List.append_assoc, ← List.replicate_add]
            rw [show 16 + (d - 16) = d from by omega]
          rw [hjoin]
      · -- final partial block of d < 16 bytes
        have hw : storage_write ⟨mem, p⟩ (List.replicate d 0) =
            (Ferr.ok, ⟨mem.take p ++ List.replicate d 0 ++ (mem.drop p).drop d,
              p + d⟩) := by
          have h2 := storage_write_at (mem.take p) (mem.drop p) (List.replicate d 0)
            (by simp; omega)
          rw [hlp] at h2
          rw [← hsplit] at h2
          simpa using h2
        rw [formatEraseLoop_succ]
        dsimp only
        rw [if_neg (by omega : ¬ ((16 : Nat) ≤ d)), hw]
        dsimp only
        rw [if_neg (fun hc => absurd hc.2 (by omega))]
        have hdrop : (mem.drop p).drop d = [] := by
          apply List.eq_nil_of_length_eq_zero
          simp only [List.length_drop]
          omega
        rw [hdrop]
        simp [show p + d = mem.length from hp]

/-- After a successful `frogfs_format` on a medium of length at least 5, the
medium holds the little-endian signature `53 4C 59 66`, the version byte 1,
and zeros everywhere else; the cursor rests at offset 5. -/
theorem frogfs_format_spec (mem : List Nat) (q : Nat) (h5 : 5 ≤ mem.length) :
    frogfs_format ⟨mem, q⟩ =
      (Ferr.ok, ⟨magicBytes ++ List.replicate (mem.length - 5) 0, 5⟩) := by
  have hzero := formatEraseLoop_spec mem.length mem 0 mem.length (by omega)
    (by omega)
  simp only [List.take_zero, List.nil_append] at hzero
  have hw : storage_write ⟨List.replicate mem.length 0, 0⟩ magicBytes =
      (Ferr.ok, ⟨magicBytes ++ List.replicate (mem.length - 5) 0, 5⟩) := by
    have := storage_write_at [] (List.replicate mem.length 0) magicBytes
      (by simp [magicBytes]; omega)
    simp only [List.nil_append, List.length_nil] at this
    rw [this]
    have hm : magicBytes.map (fun b => b % 256) = magicBytes := by decide
    have hd : (List.replicate mem.length 0).drop magicBytes.length =
        List.replicate (mem.length - 5) 0 := by
      simp [magicBytes, List.drop_replicate]
    rw [hm, hd]
    simp [magicBytes]
  simp [frogfs_format, storage_seek, storage_size, hzero, hw]


/-! ### Claim C2 -/

/-- Claim C2 as stated is false: after a successful `frogfs_format` the
first medium byte is `0x53`, not `0x66` (the signature constant
`0x66594C53` is laid down little-endian, so bytes 0..3 are
`53 4C 59 66`). Shown on a concrete 8-byte medium. -/
theorem c2_counterexample :
    (frogfs_format ⟨List.replicate 8 171, 3⟩).1 = Ferr.ok ∧
    (frogfs_format ⟨List.replicate 8 171, 3⟩).2.mem.take 4 ≠ [0x66, 0x59, 0x4C, 0x53] ∧
    (frogfs_format ⟨List.replicate 8 171, 3⟩).2.mem.take 4 = [0x53, 0x4C, 0x59, 0x66] := by
  decide

/-- Claim C2, amended: after a successful `format()` on a medium of size
`S ≥ 5`, bytes 0..3 of the medium are `0x53 0x4C 0x59 0x66` (the
little-endian bytes of the signature `0x66594C53`), byte 4 is `0x01`, and
bytes 5..S-1 are all zero. -/
theorem c2_amended (mem : List Nat) (q : Nat) (h5 : 5 ≤ mem.length) :
    (frogfs_format ⟨mem, q⟩).1 = Ferr.ok ∧
    (frogfs_format ⟨mem, q⟩).2.mem =
      [0x53, 0x4C, 0x59, 0x66, 0x01] ++ List.replicate (mem.length - 5) 0 := by
  rw [frogfs_format_spec mem q h5]
  exact ⟨rfl, rfl⟩

/-- Witness for `c2_amended` at a concrete 8-byte medium. -/
theorem c2_amended_witness :
    (frogfs_format ⟨List.replicate 8 171, 3⟩).2.mem =
      [0x53, 0x4C, 0x59, 0x66, 0x01] ++ List.replicate 3 0 := by
  have h := c2_amended (List.replicate 8 171) 3 (by decide)
  simpa using h.2

/-! ### Claim C7 -/

/-- The record indices reported by `frogfs_list`: those with a nonzero
directory offset, in ascending order. -/
def listQualifiers (ram : List FRec) : List Nat :=
  (List.range FROGFS_MAX_RECORD_COUNT).filter
    (fun i => (ram.getD i default).offset ≠ 0)

theorem listLoop_spec (ram : List FRec) (cap : Nat) :
    ∀ (idxs : List Nat) (buf : List Nat) (li : Nat),
    listLoop ram cap idxs buf (min li cap) li =
      (buf ++ (idxs.filter fun i => (ram.getD i default).offset ≠ 0).take (cap - li),
       min (li + (idxs.filter fun i => (ram.getD i default).offset ≠ 0).length) cap) := by
  intro idxs
  induction idxs with
  | nil => intro buf li; simp [listLoop]
  | cons i rest ih =>
    intro buf li
    simp only [listLoop]
    by_cases hq : (ram.getD i default).offset ≠ 0
    · rw [if_pos hq, List.filter_cons_of_pos (by simpa using hq)]
      by_cases hlt : li < cap
      · rw [if_pos hlt]
        have h1 : min li cap + 1 = min (li + 1) cap := by omega
        rw [h1, ih (buf ++ [i]) (li + 1)]
        rw [show cap - li = (cap - (li + 1)) + 1 from by omega, List.take_succ_cons]
        simp only [Prod.mk.injEq, List.append_assoc, List.singleton_append,
          List.length_cons]
        exact ⟨trivial, by omega⟩
      · rw [if_neg hlt]
        have ih2 := ih buf (li + 1)
        rw [show min (li + 1) cap = min li cap from by omega] at ih2
        rw [ih2]
        simp only [Prod.mk.injEq, List.length_cons]
        constructor
        · rw [show cap - li = 0 from by omega, show cap - (li + 1) = 0 from by omega]
          simp
        · omega
    · rw [if_neg hq, List.filter_cons_of_neg (by simpa using hq)]
      exact ih buf li

/-- Claim C7, amended: `frogfs_list` with a buffer of capacity `cap`
stores, in ascending index order, the first `min(total, cap)` indices of
records with a nonzero offset; but `*file_num` also receives
`min(total, cap)` — the reported count is truncated at the buffer
capacity, not the actual total. -/
theorem c7_amended (ram : List FRec) (cap : Nat) :
    frogfs_list ram cap =
      (Ferr.ok, (listQualifiers ram).take cap,
        min (listQualifiers ram).length cap) := by
  have h := listLoop_spec ram cap (List.range FROGFS_MAX_RECORD_COUNT) [] 0
  simp only [Nat.min_zero, Nat.zero_add, Nat.sub_zero, List.nil_append] at h
  have h0 : min 0 cap = 0 := by omega
  rw [h0] at h
  simp [frogfs_list, h, listQualifiers, min_comm]

/-- Claim C7 as stated is false on the count: with records 1, 3 and 7
existing and a buffer of capacity 2, `frogfs_list` writes `file_num = 2`,
not the actual total 3. -/
theorem c7_counterexample :
    (frogfs_list
      (((List.replicate 32 (default : FRec)).set 1 ⟨5, 0, 0, 0⟩ |>.set 3
        ⟨9, 0, 0, 0⟩ |>.set 7 ⟨13, 0, 0, 0⟩) ) 2).2.2 = 2 ∧
    (listQualifiers
      (((List.replicate 32 (default : FRec)).set 1 ⟨5, 0, 0, 0⟩ |>.set 3
        ⟨9, 0, 0, 0⟩ |>.set 7 ⟨13, 0, 0, 0⟩) )).length = 3 ∧ (2 : Nat) ≠ 3 := by
  decide

/-! ### Claim C8 -/

theorem getD_set_self (l : List FRec) (i : Nat) (a : FRec) (h : i < l.length) :
    (l.set i a).getD i default = a := by
  simp [List.getD_eq_getElem?_getD, List.getElem?_set_self, h]

/-- Claim C8, amended: `close(r)` returns `INVALID_RECORD` iff `r ≥ N`.
For `r < N` it resets `write_offset`, `work_reg_1` and `work_reg_2` when
`write_offset` or `work_reg_1` is set — but a slot whose only nonzero
scratch register is `work_reg_2` is left untouched (it falls to the
`offset`-only or `INVALID_OPERATION` branch without any reset).  For an
existing record (`offset ≠ 0`) close returns OK and a second close also
returns OK.  `INVALID_OPERATION` is returned exactly when `offset`,
`write_offset` and `work_reg_1` are all zero. -/
theorem c8_amended (ram : List FRec) (r : Nat) :
    ((frogfs_close ram r).1 = Ferr.invalidRecord ↔ FROGFS_MAX_RECORD_COUNT ≤ r) ∧
    (r < FROGFS_MAX_RECORD_COUNT →
      (((ram.getD r default).write_offset ≠ 0 ∨ (ram.getD r default).work_reg_1 ≠ 0) →
        (frogfs_close ram r).1 = Ferr.ok ∧
        ((frogfs_close ram r).2.getD r default).write_offset = 0 ∧
        ((frogfs_close ram r).2.getD r default).work_reg_1 = 0 ∧
        ((frogfs_close ram r).2.getD r default).work_reg_2 = 0 ∧
        ((frogfs_close ram r).2.getD r default).offset = (ram.getD r default).offset) ∧
      ((ram.getD r default).offset ≠ 0 →
        (frogfs_close ram r).1 = Ferr.ok ∧
        (frogfs_close (frogfs_close ram r).2 r).1 = Ferr.ok) ∧
      ((frogfs_close ram r).1 = Ferr.invalidOperation ↔
        ((ram.getD r default).offset = 0 ∧ (ram.getD r default).write_offset = 0 ∧
         (ram.getD r default).work_reg_1 = 0))) := by
  by_cases hr : r < FROGFS_MAX_RECORD_COUNT
  · have hlen : ∀ (h : ram.getD r default ≠ default), r < ram.length := by
      intro h
      by_contra hc
      exact h (List.getD_eq_default _ _ (by omega))
    refine ⟨?_, fun _ => ⟨?_, ?_, ?_⟩⟩
    · constructor
      · intro h
        exfalso
        simp only [frogfs_close, hr, if_true] at h
        by_cases h1 : (ram.getD r default).write_offset > 0
        · rw [if_pos h1] at h; exact absurd h (by simp)
        · rw [if_neg h1] at h
          by_cases h2 : (ram.getD r default).work_reg_1 > 0
          · rw [if_pos h2] at h; exact absurd h (by simp)
          · rw [if_neg h2] at h
            by_cases h3 : (ram.getD r default).offset > 0
            · rw [if_pos h3] at h; exact absurd h (by simp)
            · rw [if_neg h3] at h; exact absurd h (by simp)
      · intro h; omega
    · intro hset
      have hne : ram.getD r default ≠ default := by
        intro he
        rw [he] at hset
        simp [default] at hset
      have hlt := hlen hne
      simp only [frogfs_close, hr, if_true]
      by_cases h1 : (ram.getD r default).write_offset > 0
      · rw [if_pos h1]
        rw [getD_set_self ram r _ hlt]
        exact ⟨rfl, rfl, rfl, rfl, rfl⟩
      · have h2 : (ram.getD r default).work_reg_1 > 0 := by omega
        rw [if_neg h1, if_pos h2]
        rw [getD_set_self ram r _ hlt]
        exact ⟨rfl, rfl, rfl, rfl, rfl⟩
    · intro hoff
      simp only [frogfs_close, hr, if_true]
      by_cases h1 : (ram.getD r default).write_offset > 0
      · have hne : ram.getD r default ≠ default := by
          intro he; rw [he] at h1; simp [default] at h1
        have hlt := hlen hne
        rw [if_pos h1]
        refine ⟨rfl, ?_⟩
        simp only [frogfs_close, hr, if_true]
        rw [getD_set_self ram r _ hlt]
        dsimp only
        have hoff2 : (0 : Nat) < (ram.getD r default).offset := by omega
        rw [if_neg (by omega), if_neg (by omega), if_pos hoff2]
      · by_cases h2 : (ram.getD r default).work_reg_1 > 0
        · have hne : ram.getD r default ≠ default := by
            intro he; rw [he] at h2; simp [default] at h2
          have hlt := hlen hne
          rw [if_neg h1, if_pos h2]
          refine ⟨rfl, ?_⟩
          simp only [frogfs_close, hr, if_true]
          rw [getD_set_self ram r _ hlt]
          dsimp only
          have hoff2 : (0 : Nat) < (ram.getD r default).offset := by omega
          rw [if_neg (by omega), if_neg (by omega), if_pos hoff2]
        · have h3 : (ram.getD r default).offset > 0 := by omega
          rw [if_neg h1, if_neg h2, if_pos h3]
          refine ⟨rfl, ?_⟩
          simp only [frogfs_close, hr, if_true]
          rw [if_neg h1, if_neg h2, if_pos h3]
    · simp only [frogfs_close, hr, if_true]
      by_cases h1 : (ram.getD r default).write_offset > 0
      · rw [if_pos h1]
        exact iff_of_false (by simp) (fun hc => by omega)
      · rw [if_neg h1]
        by_cases h2 : (ram.getD r default).work_reg_1 > 0
        · rw [if_pos h2]
          exact iff_of_false (by simp) (fun hc => by omega)
        · rw [if_neg h2]
          by_cases h3 : (ram.getD r default).offset > 0
          · rw [if_pos h3]
            exact iff_of_false (by simp) (fun hc => by omega)
          · rw [if_neg h3]
            exact iff_of_true rfl ⟨by omega, by omega, by omega⟩
  · refine ⟨⟨fun _ => by omega, fun _ => ?_⟩, fun h => absurd h hr⟩
    simp only [frogfs_close, hr, if_false]

/-- Witness for `c8_amended`: a slot open for write (`write_offset = 4`,
`offset = 7`) at index 0 is closed with OK and all three scratch registers
cleared. -/
theorem c8_amended_witness :
    (frogfs_close ((List.replicate 32 (default : FRec)).set 0 ⟨7, 1, 2, 4⟩) 0).1 =
      Ferr.ok ∧
    ((frogfs_close ((List.replicate 32 (default : FRec)).set 0 ⟨7, 1, 2, 4⟩) 0).2.getD 0
      default).work_reg_2 = 0 := by
  have h := ((c8_amended ((List.replicate 32 (default : FRec)).set 0 ⟨7, 1, 2, 4⟩) 0).2
    (by decide)).1 (by decide)
  exact ⟨h.1, h.2.2.2.1⟩

/-- Claim C8 as stated is false on the reset clause: for a slot whose only
nonzero register is `work_reg_2` (= 5), close neither resets it nor
returns OK — it returns `INVALID_OPERATION` and leaves `work_reg_2 = 5`. -/
theorem c8_counterexample :
    (frogfs_close ((List.replicate 32 (default : FRec)).set 0 ⟨0, 0, 5, 0⟩) 0).1 =
      Ferr.invalidOperation ∧
    ((frogfs_close ((List.replicate 32 (default : FRec)).set 0 ⟨0, 0, 5, 0⟩) 0).2.getD 0
      default).work_reg_2 = 5 := by
  decide

/-! ### Scanner characterisation (claims C3 and C5) -/

theorem blankLoop_succ (fuel : Nat) (st : Storage) (blank : Nat) :
    blankLoop (fuel + 1) st blank =
      (let r := storage_read st 1
       if r.1 = Ferr.ok then
         if r.2.2.headD 0 = 0 then blankLoop fuel r.2.1 (blank + 1)
         else
           let r2 := storage_backtrack r.2.1 1
           (r2.1, r2.2, 0)
       else (r.1, r.2.1, blank)) := rfl

theorem findLoop_succ (fuel : Nat) (st : Storage) (ss ds sz : Nat) :
    findLoop (fuel + 1) st ss ds sz =
      (let r := storage_read st 3
       if r.1 = Ferr.ok then
         let t0 := r.2.2.getD 0 0
         let t1 := r.2.2.getD 1 0
         let t2 := r.2.2.getD 2 0
         if t0 = 0 ∨ t1 = 0 ∨ t2 = 0 then
           let ss2 := r.2.1.pos - 3
           let rb := blankLoop (r.2.1.mem.length + 1) r.2.1 3
           if rb.2.2 ≥ 7 then
             (Ferr.ok, rb.2.1, ss2, ss2 + 3, rb.2.2 - 7)
           else findLoop fuel rb.2.1 ss2 ds sz
         else
           if FROGFS_RECORD_DATA t1 = FROGFS_RECORD_DATA_SIZE then
             let ra := storage_advance r.2.1 (FROGFS_RECORD_POINTER t0 t1 t2)
             findLoop fuel ra.2 ss ds sz
           else findLoop fuel r.2.1 ss ds sz
       else (r.1, r.2.1, ss, ds, sz)) := rfl

theorem storage_read_fail (st : Storage) (n : Nat) (h : st.mem.length < st.pos + n) :
    storage_read st n = (Ferr.ioError, st, []) := by
  simp [storage_read]
  omega

theorem storage_read_one (mem : List Nat) (p : Nat) (h : p < mem.length) :
    storage_read ⟨mem, p⟩ 1 = (Ferr.ok, ⟨mem, p + 1⟩, [mem.getD p 0 % 256]) := by
  have hd : mem.drop p = mem.getD p 0 :: mem.drop (p + 1) := by
    rw [List.getD_eq_getElem mem 0 h]
    exact List.drop_eq_getElem_cons h
  simp [storage_read, show p + 1 ≤ mem.length from by omega, hd]

theorem storage_read_three (mem : List Nat) (p : Nat) (h : p + 3 ≤ mem.length) :
    storage_read ⟨mem, p⟩ 3 =
      (Ferr.ok, ⟨mem, p + 3⟩,
        [mem.getD p 0 % 256, mem.getD (p + 1) 0 % 256, mem.getD (p + 2) 0 % 256]) := by
  have h1 : mem.drop p = mem.getD p 0 :: mem.drop (p + 1) := by
    rw [List.getD_eq_getElem mem 0 (by omega)]
    exact List.drop_eq_getElem_cons (by omega)
  have h2 : mem.drop (p + 1) = mem.getD (p + 1) 0 :: mem.drop (p + 2) := by
    rw [List.getD_eq_getElem mem 0 (by omega)]
    exact List.drop_eq_getElem_cons (by omega)
  have h3 : mem.drop (p + 2) = mem.getD (p + 2) 0 :: mem.drop (p + 3) := by
    rw [List.getD_eq_getElem mem 0 (by omega)]
    exact List.drop_eq_getElem_cons (by omega)
  simp [storage_read, h, h1, h2, h3]

theorem getD_c0 (a b c d : Nat) : [a, b, c].getD 0 d = a := rfl

theorem getD_c1 (a b c d : Nat) : [a, b, c].getD 1 d = b := rfl

theorem getD_c2 (a b c d : Nat) : [a, b, c].getD 2 d = c := rfl

/-- Full case analysis of the inner zero-counting loop: it either hits a
non-zero byte (and then the counter comes back as 0 — source line 447), or
it runs off the end of the medium with every byte from the start position
on being zero, accumulating the zero count. -/
theorem blankLoop_cases : ∀ (fuel : Nat) (st : Storage) (b : Nat),
    st.pos ≤ st.mem.length → st.mem.length - st.pos < fuel →
    (blankLoop fuel st b).2.1.mem = st.mem ∧
    ((blankLoop fuel st b).2.2 = 0 ∨
     ((blankLoop fuel st b).2.2 = b + (st.mem.length - st.pos) ∧
      (blankLoop fuel st b).2.1.pos = st.mem.length ∧
      ∀ i, st.pos ≤ i → i < st.mem.length → st.mem.getD i 0 % 256 = 0)) := by
  intro fuel
  induction fuel with
  | zero => intro st b h1 h2; omega
  | succ f ih =>
    intro st b h1 h2
    obtain ⟨mem, p⟩ := st
    simp only at h1 h2 ⊢
    by_cases hend : p < mem.length
    · rw [blankLoop_succ]
      rw [storage_read_one mem p hend]
      dsimp only
      by_cases hz : mem.getD p 0 % 256 = 0
      · rw [if_pos rfl, if_pos (by simpa using hz)]
        have := ih ⟨mem, p + 1⟩ (b + 1) (by simpa using hend) (by simp; omega)
        simp only at this
        refine ⟨this.1, ?_⟩
        rcases this.2 with h | ⟨ha, hb, hc⟩
        · exact Or.inl h
        · refine Or.inr ⟨by omega, hb, ?_⟩
          intro i hi1 hi2
          by_cases hip : i = p
          · rw [hip]; exact hz
          · exact hc i (by omega) hi2
      · rw [if_pos rfl, if_neg (by simpa using hz)]
        simp [storage_backtrack]
    · -- the cursor is at (or past) the end: the read fails
      rw [blankLoop_succ]
      rw [storage_read_fail ⟨mem, p⟩ 1 (by simp; omega)]
      simp only [reduceCtorEq, if_false]
      refine ⟨by trivial, Or.inr ⟨by omega, by omega, ?_⟩⟩
      intro i hi1 hi2
      omega

/-- Invariant of the outer scanner loop: whenever it reports OK, the
returned `data_start` is `space_start + 3`, the returned `data_size` is
`blank_cnt - 7` where `blank_cnt = mem.length - space_start` (the window
contributes 3 no matter which of its bytes are zero, and the counted zero
run necessarily extends to the end of the medium), and every byte from
`space_start + 3` to the end of the medium is zero. -/
theorem findLoop_ok : ∀ (fuel : Nat) (st : Storage) (ss ds sz : Nat),
    (findLoop fuel st ss ds sz).1 = Ferr.ok →
    ((findLoop fuel st ss ds sz).2.2.2.1 = (findLoop fuel st ss ds sz).2.2.1 + 3 ∧
     (findLoop fuel st ss ds sz).2.2.2.2 + 7 =
       st.mem.length - (findLoop fuel st ss ds sz).2.2.1 ∧
     7 ≤ st.mem.length - (findLoop fuel st ss ds sz).2.2.1 ∧
     ∀ i, (findLoop fuel st ss ds sz).2.2.1 + 3 ≤ i → i < st.mem.length →
       st.mem.getD i 0 % 256 = 0) := by
  intro fuel
  induction fuel with
  | zero => intro st ss ds sz hok; exact absurd hok (by simp [findLoop])
  | succ f ih =>
    intro st ss ds sz hok
    obtain ⟨mem, p⟩ := st
    by_cases hrd : p + 3 ≤ mem.length
    · rw [findLoop_succ, storage_read_three mem p hrd] at hok ⊢
      dsimp only at hok ⊢
      simp only [getD_c0, getD_c1, getD_c2] at hok ⊢
      by_cases hw : mem.getD p 0 % 256 = 0 ∨ mem.getD (p + 1) 0 % 256 = 0 ∨
          mem.getD (p + 2) 0 % 256 = 0
      · simp only [if_true] at hok ⊢
        rw [if_pos hw] at hok ⊢
        have hbl := blankLoop_cases (mem.length + 1) ⟨mem, p + 3⟩ 3
          (by simpa using hrd) (by simp; omega)
        simp only at hbl
        by_cases h7 : (blankLoop (mem.length + 1) ⟨mem, p + 3⟩ 3).2.2 ≥ 7
        · rw [if_pos h7] at hok ⊢
          dsimp only
          rcases hbl.2 with hz | ⟨ha, hb, hc⟩
          · omega
          · refine ⟨by omega, by omega, by omega, ?_⟩
            intro i hi1 hi2
            exact hc i (by omega) hi2
        · rw [if_neg h7] at hok ⊢
          have := ih (blankLoop (mem.length + 1) ⟨mem, p + 3⟩ 3).2.1
            (p + 3 - 3) ds sz hok
          rw [hbl.1] at this
          exact this
      · simp only [if_true] at hok ⊢
        rw [if_neg hw] at hok ⊢
        by_cases hsz : FROGFS_RECORD_DATA (mem.getD (p + 1) 0 % 256) =
            FROGFS_RECORD_DATA_SIZE
        · rw [if_pos hsz] at hok ⊢
          exact ih _ ss ds sz hok
        · rw [if_neg hsz] at hok ⊢
          exact ih _ ss ds sz hok
    · rw [findLoop_succ, storage_read_fail ⟨mem, p⟩ 3 (by simp; omega)] at hok
      simp at hok

/-- Claim C5, amended: whenever `frogfs_find_contiguous_space` returns OK,
`data_start = space_start + 3` and `data_size = blank_cnt - 7`, where
`blank_cnt` counts 3 for the initial 3-byte window (whether or not every
window byte is zero) plus the consecutive zero bytes after it; on success
the counted run always reaches the end of the medium, so
`data_size + 7 = size - space_start`, and all bytes from `space_start + 3`
to the end are zero.  The zero run starting at `space_start` itself can be
shorter than `blank_cnt` (see `c5_counterexample`). -/
theorem c5_amended (st : Storage) (ss0 ds0 sz0 : Nat)
    (hS : st.mem.length ≤ 65535)
    (hok : (frogfs_find_contiguous_space st ss0 ds0 sz0).1 = Ferr.ok) :
    (frogfs_find_contiguous_space st ss0 ds0 sz0).2.2.2.1 =
      (frogfs_find_contiguous_space st ss0 ds0 sz0).2.2.1 + 3 ∧
    (frogfs_find_contiguous_space st ss0 ds0 sz0).2.2.2.2 + 7 =
      st.mem.length - (frogfs_find_contiguous_space st ss0 ds0 sz0).2.2.1 ∧
    ∀ i, (frogfs_find_contiguous_space st ss0 ds0 sz0).2.2.1 + 3 ≤ i →
      i < st.mem.length → st.mem.getD i 0 % 256 = 0 := by
  have h := findLoop_ok (st.mem.length + 2) ⟨st.mem, 5⟩ ss0 ds0 sz0
  simp only [frogfs_find_contiguous_space, storage_seek] at hok ⊢
  exact ⟨(h hok).1, (h hok).2.1, (h hok).2.2.2⟩

/-- The length of the zero-byte run in `mem` starting at offset `p`. -/
def zeroRunFrom : List Nat → Nat
  | [] => 0
  | b :: rest => if b % 256 = 0 then zeroRunFrom rest + 1 else 0

def zeroRunLen (mem : List Nat) (p : Nat) : Nat := zeroRunFrom (mem.drop p)

/-- Concrete medium for `c5_counterexample`: superblock, two zero bytes, a
stray non-zero byte `0xAA` at offset 7, then zeros to the end (size 16). -/
def memC5 : List Nat := magicBytes ++ [0, 0, 170] ++ List.replicate 8 0

/-- Claim C5 as stated is false: on `memC5` the scanner succeeds with
`space_start = 5` and `data_size = 4` (its window `[0, 0, 0xAA]` straddles
the non-zero byte, which is counted as blank), yet the zero run starting
at `space_start` has length 2, so `data_size ≠ hole_length - 7` under any
arithmetic reading (`data_size + 7 = 11 ≠ 2 = hole_length`). -/
theorem c5_counterexample :
    (frogfs_find_contiguous_space ⟨memC5, 0⟩ 0 0 0).1 = Ferr.ok ∧
    (frogfs_find_contiguous_space ⟨memC5, 0⟩ 0 0 0).2.2.1 = 5 ∧
    (frogfs_find_contiguous_space ⟨memC5, 0⟩ 0 0 0).2.2.2.2 = 4 ∧
    zeroRunLen memC5 5 = 2 ∧
    (frogfs_find_contiguous_space ⟨memC5, 0⟩ 0 0 0).2.2.2.2 + 7 ≠
      zeroRunLen memC5 5 := by
  decide

/-- Witness for `c5_amended` at the concrete medium `memC5`. -/
theorem c5_amended_witness :
    (frogfs_find_contiguous_space ⟨memC5, 0⟩ 0 0 0).2.2.2.1 =
      (frogfs_find_contiguous_space ⟨memC5, 0⟩ 0 0 0).2.2.1 + 3 ∧
    (frogfs_find_contiguous_space ⟨memC5, 0⟩ 0 0 0).2.2.2.2 + 7 =
      memC5.length - (frogfs_find_contiguous_space ⟨memC5, 0⟩ 0 0 0).2.2.1 := by
  have h := c5_amended ⟨memC5, 0⟩ 0 0 0 (by decide) (by decide)
  exact ⟨h.1, h.2.1⟩

/-! ### Claim C3 -/

/-- Concrete medium for claim C3 (size 32): after the superblock there is
a 10-byte zero hole (offsets 5..14, as vacated by an erased record), then
a live record header `normal+size(5)` for record 1 with 5 data bytes, then
9 zero bytes to the end. -/
def memC3 : List Nat :=
  magicBytes ++ List.replicate 10 0 ++ [2, 128, 5] ++ List.replicate 5 170 ++
    List.replicate 9 0

/-- A full medium (size 16): one record's data covers everything after the
superblock, leaving no zero run at all. -/
def memC3full : List Nat := magicBytes ++ [1, 128, 8] ++ List.replicate 8 170

/-- Claim C3 is right about the intent and the code is wrong: on `memC3`
the data area holds a zero run of length 10 ≥ 7 starting at offset 5 (the
hole vacated by an erased record), yet a fresh
`frogfs_find_contiguous_space` does not report it — the inner loop resets
`blank_cnt` to 0 whenever the run ends at a non-zero byte, so an interior
hole is never accepted and the scanner returns the trailing run at offset
23 instead.  Moreover, when no qualifying run exists (`memC3full`) it
returns `IO`, not `NOSPACE`. -/
theorem c3_failing :
    zeroRunLen memC3 5 = 10 ∧ 7 ≤ zeroRunLen memC3 5 ∧
    (frogfs_find_contiguous_space ⟨memC3, 0⟩ 0 0 0).1 = Ferr.ok ∧
    (frogfs_find_contiguous_space ⟨memC3, 0⟩ 0 0 0).2.2.1 = 23 ∧
    (23 : Nat) ≠ 5 ∧
    (frogfs_find_contiguous_space ⟨memC3full, 0⟩ 0 0 0).1 = Ferr.ioError ∧
    Ferr.ioError ≠ Ferr.nospace := by
  decide

/-! ### Status lemmas: the traversal only ever reports OK or IO -/

theorem ite_lt_min (a b : Nat) : (if a < b then a else b) = min a b := by
  split <;> omega

theorem storage_read_status (st : Storage) (n : Nat) :
    (storage_read st n).1 = Ferr.ok ∨ (storage_read st n).1 = Ferr.ioError := by
  unfold storage_read; split <;> simp

theorem storage_write_status (st : Storage) (l : List Nat) :
    (storage_write st l).1 = Ferr.ok ∨ (storage_write st l).1 = Ferr.ioError := by
  unfold storage_write; split <;> simp

theorem eraseWriteLoop_status (n : Nat) : ∀ (st : Storage),
    (eraseWriteLoop st n).1 = Ferr.ok ∨ (eraseWriteLoop st n).1 = Ferr.ioError := by
  induction n with
  | zero => intro st; simp [eraseWriteLoop]
  | succ m ih =>
    intro st
    simp only [eraseWriteLoop]
    rcases storage_write_status st [0] with h | h
    · rw [h]
      simp only [ne_eq, not_true_eq_false, if_false]
      exact ih _
    · rw [h]
      simp

theorem frogfs_erase_range_status (st : Storage) (p n : Nat) :
    (frogfs_erase_range st p n).1 = Ferr.ok ∨
    (frogfs_erase_range st p n).1 = Ferr.ioError := by
  unfold frogfs_erase_range storage_seek
  simp only [if_pos rfl]
  exact eraseWriteLoop_status n _

theorem traverseHeaderStep_status (record : Nat) (erase : Bool) (fs : FS)
    (buf : List Nat) (eff size : Nat) :
    (traverseHeaderStep record erase fs buf eff size).1.2.2.2.2 = Ferr.ok ∨
    (traverseHeaderStep record erase fs buf eff size).1.2.2.2.2 = Ferr.ioError := by
  simp only [traverseHeaderStep]
  rcases storage_read_status (storage_seek fs.st
    (fs.ram.getD record default).work_reg_1).2 3 with h | h
  · rw [h]
    simp only [ne_eq, not_true_eq_false, if_false]
    by_cases hix : record ≠ FROGFS_RECORD_INDEX
        ((storage_read (storage_seek fs.st
          (fs.ram.getD record default).work_reg_1).2 3).2.2.getD 0 0)
    · rw [if_pos hix]
      left
      rfl
    · rw [if_neg hix]
      by_cases hty : FROGFS_RECORD_TYPE
          ((storage_read (storage_seek fs.st
            (fs.ram.getD record default).work_reg_1).2 3).2.2.getD 0 0) =
          FROGFS_RECORD_TYPE_FRAGMENT
      · rw [if_pos hty]
        cases erase with
        | false =>
          simp only [Bool.false_eq_true, if_false]
          by_cases hda : FROGFS_RECORD_DATA
              ((storage_read (storage_seek fs.st
                (fs.ram.getD record default).work_reg_1).2 3).2.2.getD 1 0) =
              FROGFS_RECORD_DATA_SIZE
          · rw [if_pos hda]; left; rfl
          · rw [if_neg hda]; left; rfl
        | true =>
          simp only [if_true]
          rcases frogfs_erase_range_status
            (storage_read (storage_seek fs.st
              (fs.ram.getD record default).work_reg_1).2 3).2.1
            ((storage_read (storage_seek fs.st
              (fs.ram.getD record default).work_reg_1).2 3).2.1.pos - 3) 3 with h2 | h2
          · rw [h2]
            simp
          · rw [h2]
            simp
      · rw [if_neg hty]
        left
        rfl
  · rw [h]
    simp only [ne_eq, not_false_eq_true, if_true]
    right
    rfl

theorem traverseDataStep_status (record : Nat) (hasBuf erase : Bool) (fs : FS)
    (buf : List Nat) (eff size : Nat) :
    (traverseDataStep record hasBuf erase fs buf eff size).1.2.2.2.2 = Ferr.ok ∨
    (traverseDataStep record hasBuf erase fs buf eff size).1.2.2.2.2 = Ferr.ioError := by
  simp only [traverseDataStep, storage_seek, ne_eq, not_true_eq_false, if_false]
  cases erase with
  | true =>
    simp only [if_true]
    rcases frogfs_erase_range_status ⟨fs.st.mem, (fs.ram.getD record default).work_reg_1⟩
      (fs.ram.getD record default).work_reg_1
      (fs.ram.getD record default).work_reg_2 with h | h
    · rw [h]
      simp
    · rw [h]
      simp
  | false =>
    simp only [Bool.false_eq_true, if_false]
    cases hasBuf with
    | true =>
      simp only [if_true]
      rcases storage_read_status ⟨fs.st.mem, (fs.ram.getD record default).work_reg_1⟩
        (if size < (fs.ram.getD record default).work_reg_2 then size
         else (fs.ram.getD record default).work_reg_2) with h | h
      · rw [h]
        simp
      · rw [h]
        simp
    | false =>
      simp

theorem traverseInitStep_status (record : Nat) (erase : Bool) (fs : FS)
    (buf : List Nat) (eff size : Nat) :
    (traverseInitStep record erase fs buf eff size).1.2.2.2.2 = Ferr.ok ∨
    (traverseInitStep record erase fs buf eff size).1.2.2.2.2 = Ferr.ioError := by
  simp only [traverseInitStep, storage_seek, if_pos rfl]
  cases erase with
  | true =>
    simp only [if_true]
    rcases frogfs_erase_range_status
      (storage_read ⟨fs.st.mem, (fs.ram.getD record default).offset⟩ 3).2.1
      (fs.ram.getD record default).offset 3 with h | h
    · left; exact h
    · right; exact h
  | false =>
    simp only [Bool.false_eq_true, if_false]
    rcases storage_read_status ⟨fs.st.mem, (fs.ram.getD record default).offset⟩ 3
      with h | h
    · simp only [List.getD_eq_getElem?_getD] at h
      simp [h]
    · simp only [List.getD_eq_getElem?_getD] at h
      simp [h]

theorem traverseStep_status (record : Nat) (hasBuf erase : Bool) (fs : FS)
    (buf : List Nat) (eff size : Nat) (rv : Ferr) :
    (traverseStep record hasBuf erase fs buf eff size rv).1.2.2.2.2 = Ferr.ok ∨
    (traverseStep record hasBuf erase fs buf eff size rv).1.2.2.2.2 = Ferr.ioError := by
  simp only [traverseStep]
  by_cases h1 : (fs.ram.getD record default).work_reg_1 > 0 ∧
      (fs.ram.getD record default).work_reg_2 = 65535
  · rw [if_pos h1]
    exact traverseHeaderStep_status record erase fs buf eff size
  · rw [if_neg h1]
    by_cases h2 : (fs.ram.getD record default).work_reg_1 > 0
    · rw [if_pos h2]
      exact traverseDataStep_status record hasBuf erase fs buf eff size
    · rw [if_neg h2]
      exact traverseInitStep_status record erase fs buf eff size

theorem traverseLoop_status (record : Nat) (hasBuf erase : Bool) :
    ∀ (fuel : Nat) (fs : FS) (buf : List Nat) (eff size : Nat) (rv : Ferr),
    (traverseLoop record hasBuf erase fuel fs buf eff size rv).1 = Ferr.ok ∨
    (traverseLoop record hasBuf erase fuel fs buf eff size rv).1 = Ferr.ioError := by
  intro fuel
  induction fuel with
  | zero => intro fs buf eff size rv; right; rfl
  | succ f ih =>
    intro fs buf eff size rv
    simp only [traverseLoop]
    split
    · exact ih _ _ _ _ _
    · exact traverseStep_status record hasBuf erase fs buf eff size rv

/-- A traversal never reports `NULL_POINTER`, whatever the arguments: its
result is always OK, IO, NOT_READABLE or INVALID_RECORD. -/
theorem frogfs_traverse_no_nullPointer (fs : FS) (record : Nat)
    (hasBuf : Bool) (buf : List Nat) (size : Nat) (erase : Bool) :
    (frogfs_traverse fs record hasBuf buf size erase).1 ≠ Ferr.nullPointer := by
  unfold frogfs_traverse
  split
  · split
    · simp
    · rcases traverseLoop_status record hasBuf erase
        (fs.st.mem.length + size + 16) fs buf 0 size Ferr.ioError with h | h
      · rw [h]; simp
      · rw [h]; simp
  · simp

/-! ### Claim C4 -/

/-- Claim C4, amended: in the traversal's data step while reading (not
erasing, with a non-null buffer), the chunk transferred is exactly
`min(n, work_reg_2)` bytes — `n` is the full requested size, **not**
`n - effective` — placed at offset `effective` of the caller's buffer, and
`effective` then advances by that chunk, so across a multi-extent read
`effective` can exceed `n` (see `c4_counterexample`). -/
theorem c4_amended (fs : FS) (buf : List Nat) (record eff size : Nat) (rv : Ferr)
    (h1 : (fs.ram.getD record default).work_reg_1 > 0)
    (h2 : (fs.ram.getD record default).work_reg_2 ≠ 65535)
    (hin : (fs.ram.getD record default).work_reg_1 +
      min size (fs.ram.getD record default).work_reg_2 ≤ fs.st.mem.length)
    (heff : eff + min size (fs.ram.getD record default).work_reg_2 ≤ 65535) :
    (traverseStep record true false fs buf eff size rv).1.2.2.1 =
      eff + min size (fs.ram.getD record default).work_reg_2 ∧
    (traverseStep record true false fs buf eff size rv).1.2.1 =
      storeAt buf eff
        (((fs.st.mem.drop (fs.ram.getD record default).work_reg_1).take
          (min size (fs.ram.getD record default).work_reg_2)).map (fun b => b % 256)) ∧
    (traverseStep record true false fs buf eff size rv).1.2.2.2.2 = Ferr.ok ∧
    (traverseStep record true false fs buf eff size rv).2.1 = false ∧
    (traverseStep record true false fs buf eff size rv).2.2 = false := by
  have hread : storage_read ⟨fs.st.mem, (fs.ram.getD record default).work_reg_1⟩
      (min size (fs.ram.getD record default).work_reg_2) =
      (Ferr.ok, ⟨fs.st.mem, (fs.ram.getD record default).work_reg_1 +
        min size (fs.ram.getD record default).work_reg_2⟩,
       ((fs.st.mem.drop (fs.ram.getD record default).work_reg_1).take
         (min size (fs.ram.getD record default).work_reg_2)).map (fun b => b % 256)) := by
    simp only [storage_read]
    rw [if_pos hin]
  simp only [traverseStep]
  rw [if_neg (fun hc => h2 hc.2), if_pos h1]
  simp only [traverseDataStep, storage_seek, ne_eq, not_true_eq_false, if_false,
    Bool.false_eq_true, if_true, ite_lt_min]
  rw [hread]
  simp only [ne_eq, not_true_eq_false, if_false]
  refine ⟨Nat.mod_eq_of_lt (by omega), ?_, ?_, ?_, ?_⟩ <;> trivial

/-- Concrete fragmented medium for claims C4 and C10 (size 24): record 0
has a first extent `normal+size(2)` at offset 5 with data `AA BB`, a
pointer fragment at 10 to offset 13, and there a `fragment+size(2)` header
with data `CC DD`. -/
def memFrag : List Nat :=
  magicBytes ++ [1, 128, 2] ++ [170, 187] ++ [129, 0, 13] ++ [129, 128, 2] ++
    [204, 221] ++ List.replicate 6 0

/-- The directory for `memFrag`: record 0 exists with first extent at 5. -/
def fsFrag : FS := ⟨(List.replicate 32 (default : FRec)).set 0 ⟨5, 0, 0, 0⟩, ⟨memFrag, 0⟩⟩

/-- Claim C4 as stated is false: reading 3 bytes of the fragmented record
transfers `min(n, work_reg_2)` per extent, not `min(n - effective,
work_reg_2)`, so the read returns `effective_read = 4 > n = 3` (and the
caller's buffer receives 4 bytes). -/
theorem c4_counterexample :
    (frogfs_read fsFrag 0 true (List.replicate 8 0) 3).1 = Ferr.ok ∧
    (frogfs_read fsFrag 0 true (List.replicate 8 0) 3).2.2.2 = 4 ∧
    ¬ (frogfs_read fsFrag 0 true (List.replicate 8 0) 3).2.2.2 ≤ 3 ∧
    (frogfs_read fsFrag 0 true (List.replicate 8 0) 3).2.2.1 =
      [170, 187, 204, 221, 0, 0, 0, 0] := by
  decide

/-- Witness for `c4_amended` at a concrete mid-read state on `memFrag`
(current extent at 8, 2 bytes remaining, request 3). -/
theorem c4_amended_witness :
    (traverseStep 0 true false
        ⟨(List.replicate 32 (default : FRec)).set 0 ⟨5, 8, 2, 0⟩, ⟨memFrag, 0⟩⟩
        (List.replicate 8 0) 0 3 Ferr.ioError).1.2.2.1 = 0 + min 3 2 ∧
    (traverseStep 0 true false
        ⟨(List.replicate 32 (default : FRec)).set 0 ⟨5, 8, 2, 0⟩, ⟨memFrag, 0⟩⟩
        (List.replicate 8 0) 0 3 Ferr.ioError).1.2.2.2.2 = Ferr.ok := by
  have h := c4_amended
    ⟨(List.replicate 32 (default : FRec)).set 0 ⟨5, 8, 2, 0⟩, ⟨memFrag, 0⟩⟩
    (List.replicate 8 0) 0 0 3 Ferr.ioError (by decide) (by decide) (by decide)
    (by decide)
  exact ⟨h.1, h.2.2.1⟩

/-! ### Claim C10 -/

/-- Claim C10, amended: a read with `data == NULL` never returns
`NULL_POINTER`, and in the data step `effective_read` and `work_reg_2`
advance exactly as in a normal read; but `work_reg_1` does **not** advance
— the storage read is skipped, so the cursor recorded by `storage_pos`
stays at the start of the chunk instead of moving past it, unlike a normal
read (which leaves `work_reg_1` advanced by the chunk). -/
theorem c10_amended (fs : FS) (buf : List Nat) (record eff size : Nat) (rv : Ferr)
    (h1 : (fs.ram.getD record default).work_reg_1 > 0)
    (h2 : (fs.ram.getD record default).work_reg_2 ≠ 65535)
    (heff : eff + min size (fs.ram.getD record default).work_reg_2 ≤ 65535) :
    (frogfs_read fs record false buf size).1 ≠ Ferr.nullPointer ∧
    (traverseStep record false false fs buf eff size rv).1.2.2.1 =
      eff + min size (fs.ram.getD record default).work_reg_2 ∧
    (traverseStep record false false fs buf eff size rv).1.2.1 = buf ∧
    (traverseStep record false false fs buf eff size rv).1.1.ram =
      fs.ram.set record
        { fs.ram.getD record default with
          work_reg_1 := (fs.ram.getD record default).work_reg_1,
          work_reg_2 :=
            if (fs.ram.getD record default).work_reg_2 -
                min size (fs.ram.getD record default).work_reg_2 = 0 then 65535
            else (fs.ram.getD record default).work_reg_2 -
              min size (fs.ram.getD record default).work_reg_2 } ∧
    (traverseStep record false false fs buf eff size rv).1.2.2.2.2 = Ferr.ok := by
  refine ⟨frogfs_traverse_no_nullPointer fs record false buf size false, ?_⟩
  simp only [traverseStep]
  rw [if_neg (fun hc => h2 hc.2), if_pos h1]
  simp only [traverseDataStep, storage_seek, ne_eq, not_true_eq_false, if_false,
    Bool.false_eq_true, if_true, ite_lt_min]
  refine ⟨Nat.mod_eq_of_lt (by omega), ?_, ?_, ?_⟩ <;> trivial

/-- Claim C10 as stated is false on the cursor: on `memFrag`, a NULL read
of 2 bytes returns OK with `effective_read = 2` (no NULL_POINTER), but
leaves `work_reg_1 = 8` — the data start — whereas the same read with a
buffer leaves `work_reg_1 = 10`. -/
theorem c10_counterexample :
    (frogfs_read fsFrag 0 false [] 2).1 = Ferr.ok ∧
    (frogfs_read fsFrag 0 false [] 2).2.2.2 = 2 ∧
    ((frogfs_read fsFrag 0 false [] 2).2.1.ram.getD 0 default).work_reg_1 = 8 ∧
    ((frogfs_read fsFrag 0 true (List.replicate 8 0) 2).2.1.ram.getD 0
      default).work_reg_1 = 10 ∧
    (8 : Nat) ≠ 10 := by
  decide

/-- Witness for `c10_amended` at a concrete mid-read state on `memFrag`. -/
theorem c10_amended_witness :
    (frogfs_read
        ⟨(List.replicate 32 (default : FRec)).set 0 ⟨5, 8, 2, 0⟩, ⟨memFrag, 0⟩⟩
        0 false [] 2).1 ≠ Ferr.nullPointer ∧
    (traverseStep 0 false false
        ⟨(List.replicate 32 (default : FRec)).set 0 ⟨5, 8, 2, 0⟩, ⟨memFrag, 0⟩⟩
        [] 0 2 Ferr.ioError).1.2.2.1 = 0 + min 2 2 := by
  have h := c10_amended
    ⟨(List.replicate 32 (default : FRec)).set 0 ⟨5, 8, 2, 0⟩, ⟨memFrag, 0⟩⟩
    [] 0 0 2 Ferr.ioError (by decide) (by decide) (by decide)
  exact ⟨h.1, h.2.1⟩

/-! ### Claim C6 -/

/-- Concrete medium for claim C6 (size 20): after the superblock, a
`fragment+pointer(7)` word at offset 5 (the payload 7 satisfies
`5 < 7 < 20`), then a `normal+size(0)` header for record 0 at offset 8,
then zeros. -/
def memC6 : List Nat := magicBytes ++ [129, 0, 7] ++ [1, 128, 0] ++ List.replicate 9 0

/-- A medium whose fragment+pointer payload 3 violates `5 < payload`. -/
def memC6bad : List Nat := magicBytes ++ [129, 0, 3] ++ List.replicate 12 0

/-- Claim C6 is right about the intent and the code is wrong: on a valid
fragment+pointer word the boot scan does not continue at the next byte —
it calls `storage_advance(pointer)` (frogfs.c line 326), skipping
`payload` bytes, against its own comment `just skip the record metadata,
next will be something else`.  On `memC6` the advance jumps over the
`normal+size(0)` header of record 0 at offset 8, so init returns OK with
record 0 unregistered (`offset = 0` instead of 8).  The validation half of
the claim does hold: on `memC6bad` (payload 3 ≤ 5) init fails with
`OUT_OF_RANGE`. -/
theorem c6_failing :
    (frogfs_init ⟨[], ⟨memC6, 0⟩⟩).1 = Ferr.ok ∧
    ((frogfs_init ⟨[], ⟨memC6, 0⟩⟩).2.ram.getD 0 default).offset = 0 ∧
    FROGFS_RECORD_TYPE (memC6.getD 8 0) = FROGFS_RECORD_TYPE_NORMAL ∧
    FROGFS_RECORD_DATA (memC6.getD 9 0) = FROGFS_RECORD_DATA_SIZE ∧
    FROGFS_RECORD_INDEX (memC6.getD 8 0) = 0 ∧
    (frogfs_init ⟨[], ⟨memC6bad, 0⟩⟩).1 = Ferr.outOfRange := by
  decide

/-! ### The freshly formatted medium: init, find-space and open -/

theorem getD_app (A B : List Nat) (i d : Nat) :
    (A ++ B).getD (A.length + i) d = B.getD i d := by
  induction A with
  | nil => simp
  | cons a A ih => simpa [Nat.succ_add] using ih

theorem getD_replicate {α : Type} (k i : Nat) (d x : α) (h : i < k) :
    (List.replicate k x).getD i d = x := by
  rw [List.getD_eq_getElem _ d (by simpa using h)]
  simp only [List.getElem_replicate]

theorem getD_default_of_replicate (r : Nat) (h : r < 32) :
    (List.replicate 32 (default : FRec)).getD r default = default :=
  getD_replicate _ _ _ _ h

theorem initSkipLoop_succ (fuel : Nat) (st : Storage) (t0 t1 t2 : Nat) :
    initSkipLoop (fuel + 1) st t0 t1 t2 =
      (let r := storage_read st 1
       let t0b := if r.1 = Ferr.ok then r.2.2.headD 0 else t0
       if t0b ≠ 0 then
         let rb := storage_backtrack r.2.1 1
         if rb.1 = Ferr.ok then
           let r3 := storage_read rb.2 3
           if r3.1 = Ferr.ok then
             (Ferr.ok, r3.2.1, r3.2.2.getD 0 0, r3.2.2.getD 1 0, r3.2.2.getD 2 0)
           else (r3.1, r3.2.1, t0b, t1, t2)
         else (rb.1, rb.2, t0b, t1, t2)
       else
         if r.1 = Ferr.ok then initSkipLoop fuel r.2.1 t0b t1 t2
         else (r.1, r.2.1, t0b, t1, t2)) := rfl

theorem initSkipLoop_at_end (fuel : Nat) (st : Storage) (t1 t2 : Nat)
    (h : st.mem.length ≤ st.pos) :
    initSkipLoop (fuel + 1) st 0 t1 t2 = (Ferr.ioError, st, 0, t1, t2) := by
  rw [initSkipLoop_succ]
  rw [storage_read_fail st 1 (by omega)]
  simp

/-- Skipping over an all-zero tail of the medium: the inner loop of the
boot scan consumes every zero byte and stops with a failed read at the end
of the medium, leaving `tmp[0] = 0`. -/
theorem initSkipLoop_zero_tail : ∀ (k fuel : Nat) (A : List Nat) (t0 t1 t2 : Nat),
    k < fuel → 1 ≤ k →
    initSkipLoop fuel ⟨A ++ List.replicate k 0, A.length⟩ t0 t1 t2 =
      (Ferr.ioError, ⟨A ++ List.replicate k 0, A.length + k⟩, 0, t1, t2) := by
  intro k
  induction k with
  | zero => intro fuel A t0 t1 t2 _ h; omega
  | succ j ih =>
    intro fuel A t0 t1 t2 hf _
    obtain ⟨f, rfl⟩ : ∃ f, fuel = f + 1 := ⟨fuel - 1, by omega⟩
    rw [initSkipLoop_succ]
    have hz : (A ++ List.replicate (j + 1) 0).getD A.length 0 = 0 :=
      (getD_app A (List.replicate (j + 1) 0) 0 0).trans
        (getD_replicate _ _ _ _ (by omega))
    have hrd : storage_read ⟨A ++ List.replicate (j + 1) 0, A.length⟩ 1 =
        (Ferr.ok, ⟨A ++ List.replicate (j + 1) 0, A.length + 1⟩, [0]) := by
      rw [storage_read_one _ _ (by simp)]
      rw [hz]
    rw [hrd]
    dsimp only
    simp only [List.headD_cons, if_true]
    rw [if_neg (by simp)]
    have hsplit : A ++ List.replicate (j + 1) 0 = (A ++ [0]) ++ List.replicate j 0 := by
      rw [List.replicate_succ, List.append_cons]
    have hlen : A.length + 1 = (A ++ [0]).length := by simp
    by_cases hj : j = 0
    · subst hj
      obtain ⟨f2, rfl⟩ : ∃ f2, f = f2 + 1 := ⟨f - 1, by omega⟩
      rw [hsplit, hlen]
      rw [initSkipLoop_at_end f2 _ t1 t2 (by simp)]
    · rw [hsplit, hlen]
      rw [ih f (A ++ [0]) 0 t1 t2 (by omega) (by omega)]
      have hfin : (A ++ [0]).length + j = A.length + (j + 1) := by
        simp only [List.length_append, List.length_cons, List.length_nil]
        omega
      rw [hfin]

/-- The inner blank-counting loop over an all-zero tail of the medium:
every byte counts, and the loop stops on the failed read at the end. -/
theorem blankLoop_zero_tail : ∀ (k fuel : Nat) (A : List Nat) (b : Nat),
    k < fuel →
    blankLoop fuel ⟨A ++ List.replicate k 0, A.length⟩ b =
      (Ferr.ioError, ⟨A ++ List.replicate k 0, A.length + k⟩, b + k) := by
  intro k
  induction k with
  | zero =>
    intro fuel A b hf
    obtain ⟨f, rfl⟩ : ∃ f, fuel = f + 1 := ⟨fuel - 1, by omega⟩
    rw [blankLoop_succ]
    rw [storage_read_fail _ 1 (by simp)]
    simp
  | succ j ih =>
    intro fuel A b hf
    obtain ⟨f, rfl⟩ : ∃ f, fuel = f + 1 := ⟨fuel - 1, by omega⟩
    rw [blankLoop_succ]
    have hz : (A ++ List.replicate (j + 1) 0).getD A.length 0 = 0 :=
      (getD_app A (List.replicate (j + 1) 0) 0 0).trans
        (getD_replicate _ _ _ _ (by omega))
    have hrd : storage_read ⟨A ++ List.replicate (j + 1) 0, A.length⟩ 1 =
        (Ferr.ok, ⟨A ++ List.replicate (j + 1) 0, A.length + 1⟩, [0]) := by
      rw [storage_read_one _ _ (by simp)]
      rw [hz]
    rw [hrd]
    dsimp only
    simp only [List.headD_cons, if_true]
    have hsplit : A ++ List.replicate (j + 1) 0 = (A ++ [0]) ++ List.replicate j 0 := by
      rw [List.replicate_succ, List.append_cons]
    rw [hsplit]
    rw [show A.length + 1 = (A ++ [0]).length from by simp]
    rw [ih f (A ++ [0]) (b + 1) (by omega)]
    have hfin : (A ++ [0]).length + j = A.length + (j + 1) := by
      simp only [List.length_append, List.length_cons, List.length_nil]
      omega
    rw [hfin]
    rw [show b + 1 + j = b + (j + 1) from by omega]

theorem initLoop_succ (fuel : Nat) (st : Storage) (ram : List FRec) (t0 t1 t2 : Nat) :
    initLoop (fuel + 1) st ram t0 t1 t2 =
      (let rs := initSkipLoop (st.mem.length + 1) st t0 t1 t2
       let st1 := rs.2.1
       let u0 := rs.2.2.1
       let u1 := rs.2.2.2.1
       let u2 := rs.2.2.2.2
       if rs.1 = Ferr.ok then
         let index := FROGFS_RECORD_INDEX u0
         if index > FROGFS_MAX_RECORD_COUNT then (Ferr.outOfRange, st1, ram)
         else
           let pointer := FROGFS_RECORD_POINTER u0 u1 u2
           if FROGFS_RECORD_TYPE u0 = FROGFS_RECORD_TYPE_NORMAL ∧
              FROGFS_RECORD_DATA u1 = FROGFS_RECORD_DATA_SIZE then
             if (ram.getD index default).offset = 0 then
               let ram2 := ram.set index
                 { ram.getD index default with offset := st1.pos - 3 }
               let ra := storage_advance st1 pointer
               if ra.1 = Ferr.ok ∧ storage_end_of_storage ra.2 ≠ Ferr.ok then
                 initLoop fuel ra.2 ram2 u0 u1 u2
               else (ra.1, ra.2, ram2)
             else (Ferr.outOfRange, st1, ram)
           else if FROGFS_RECORD_TYPE u0 = FROGFS_RECORD_TYPE_FRAGMENT ∧
                   FROGFS_RECORD_DATA u1 = FROGFS_RECORD_DATA_POINTER then
             if pointer ≥ st1.mem.length ∨ pointer ≤ 5 then (Ferr.outOfRange, st1, ram)
             else
               let ra := storage_advance st1 pointer
               if ra.1 = Ferr.ok ∧ storage_end_of_storage ra.2 ≠ Ferr.ok then
                 initLoop fuel ra.2 ram u0 u1 u2
               else (ra.1, ra.2, ram)
           else if FROGFS_RECORD_TYPE u0 = FROGFS_RECORD_TYPE_FRAGMENT ∧
                   FROGFS_RECORD_DATA u1 = FROGFS_RECORD_DATA_SIZE then
             let ra := storage_advance st1 pointer
             if ra.1 = Ferr.ok ∧ storage_end_of_storage ra.2 ≠ Ferr.ok then
               initLoop fuel ra.2 ram u0 u1 u2
             else (ra.1, ra.2, ram)
           else (Ferr.ioError, st1, ram)
       else
         if st1.pos + 3 ≥ st1.mem.length then (Ferr.ok, st1, ram)
         else if storage_end_of_storage st1 ≠ Ferr.ok then initLoop fuel st1 ram u0 u1 u2
         else (Ferr.ok, st1, ram)) := rfl

/-- The freshly formatted medium of size `S`. -/
def memFresh (S : Nat) : List Nat := magicBytes ++ List.replicate (S - 5) 0

/-- The cleared in-RAM directory. -/
def ramFresh : List FRec := List.replicate FROGFS_MAX_RECORD_COUNT default

theorem memFresh_length (S : Nat) (hS : 5 ≤ S) : (memFresh S).length = S := by
  simp only [memFresh, List.length_append, List.length_replicate,
    show magicBytes.length = 5 from rfl]
  omega

theorem storage_read_front (mem : List Nat) (n : Nat) (h : n ≤ mem.length) :
    storage_read ⟨mem, 0⟩ n =
      (Ferr.ok, ⟨mem, n⟩, (mem.take n).map (fun b => b % 256)) := by
  simp [storage_read, h]

set_option maxHeartbeats 2000000 in
/-- `frogfs_init` on a freshly formatted medium: the superblock check
passes, the skip loop runs off the all-zero data area, and the scan ends
cleanly with an empty directory. -/
theorem frogfs_init_fresh (S q : Nat) (ram : List FRec) (hS : 6 ≤ S) :
    frogfs_init ⟨ram, ⟨memFresh S, q⟩⟩ =
      (Ferr.ok, ⟨ramFresh, ⟨memFresh S, S⟩⟩) := by
  have hml : (memFresh S).length = S := memFresh_length S (by omega)
  have hrd5 : storage_read ⟨memFresh S, 0⟩ 5 =
      (Ferr.ok, ⟨memFresh S, 5⟩, magicBytes) := by
    rw [storage_read_front _ 5 (by omega)]
    have ht : (memFresh S).take 5 = magicBytes := by
      have := take_app_self magicBytes (List.replicate (S - 5) 0)
      rw [show magicBytes.length = 5 from rfl] at this
      exact this
    rw [ht]
    rw [show magicBytes.map (fun b => b % 256) = magicBytes from by decide]
  have hskip : initSkipLoop (S + 1) ⟨memFresh S, 5⟩ 83 76 89 =
      (Ferr.ioError, ⟨memFresh S, S⟩, 0, 76, 89) := by
    have h1 := initSkipLoop_zero_tail (S - 5) (S + 1) magicBytes 83 76 89
      (by omega) (by omega)
    rw [show magicBytes.length = 5 from rfl] at h1
    rw [show 5 + (S - 5) = S from by omega] at h1
    exact h1
  simp only [frogfs_init, storage_seek]
  rw [hrd5]
  dsimp only
  rw [if_pos rfl, if_pos rfl]
  rw [show (⟨memFresh S, 5⟩ : Storage).mem.length + 2 = (S + 1) + 1 from by
    dsimp only; omega]
  rw [initLoop_succ]
  dsimp only
  rw [show (⟨memFresh S, 5⟩ : Storage).mem.length + 1 = S + 1 from by
    dsimp only; omega]
  rw [show (magicBytes.getD 0 0) = 83 from rfl, show (magicBytes.getD 1 0) = 76 from rfl,
    show (magicBytes.getD 2 0) = 89 from rfl]
  rw [hskip]
  dsimp only
  rw [if_neg (by simp)]
  rw [if_pos (by simp only [hml]; omega)]
  rfl

theorem mem_fresh_split (S : Nat) (hS : 8 ≤ S) :
    memFresh S = (magicBytes ++ List.replicate 3 0) ++ List.replicate (S - 8) 0 := by
  simp only [memFresh]
  rw [List.append_assoc, ← List.replicate_add,
    show 3 + (S - 8) = S - 5 from by omega]

theorem getD_memFresh_zero (S i : Nat) (h5 : 5 ≤ i) (hi : i < S) :
    (memFresh S).getD i 0 = 0 := by
  have h0 := getD_app magicBytes (List.replicate (S - 5) 0) (i - 5) 0
  rw [show magicBytes.length = 5 from rfl] at h0
  rw [show 5 + (i - 5) = i from by omega] at h0
  rw [show (memFresh S : List Nat) = magicBytes ++ List.replicate (S - 5) 0 from rfl]
  rw [h0]
  exact getD_replicate _ _ _ _ (by omega)

/-- The free-space scanner on a freshly formatted medium: the whole data
area is one zero run touching the end of the medium, so the very first
window at offset 5 is accepted with `space_start = 5`, `data_start = 8`
and `data_size = S - 12`. -/
theorem find_fresh (S q ss0 ds0 sz0 : Nat) (hS : 12 ≤ S) :
    frogfs_find_contiguous_space ⟨memFresh S, q⟩ ss0 ds0 sz0 =
      (Ferr.ok, ⟨memFresh S, S⟩, 5, 8, S - 12) := by
  have hml : (memFresh S).length = S := memFresh_length S (by omega)
  have hrd3 : storage_read ⟨memFresh S, 5⟩ 3 =
      (Ferr.ok, ⟨memFresh S, 5 + 3⟩, [0, 0, 0]) := by
    rw [storage_read_three _ 5 (by omega)]
    rw [getD_memFresh_zero S 5 (by omega) (by omega),
        getD_memFresh_zero S 6 (by omega) (by omega),
        getD_memFresh_zero S 7 (by omega) (by omega)]
  have hbl : blankLoop (S + 1) ⟨memFresh S, 5 + 3⟩ 3 =
      (Ferr.ioError, ⟨memFresh S, S⟩, 3 + (S - 8)) := by
    have h1 := blankLoop_zero_tail (S - 8) (S + 1) (magicBytes ++ List.replicate 3 0) 3
      (by omega)
    rw [← mem_fresh_split S (by omega)] at h1
    have hl8 : (magicBytes ++ List.replicate 3 0).length = 5 + 3 := rfl
    rw [hl8] at h1
    rw [show 5 + 3 + (S - 8) = S from by omega] at h1
    exact h1
  simp only [frogfs_find_contiguous_space, storage_seek]
  rw [show (⟨memFresh S, 5⟩ : Storage).mem.length + 2 = (S + 1) + 1 from by
    dsimp only; omega]
  rw [findLoop_succ]
  dsimp only
  rw [hrd3]
  dsimp only
  simp only [getD_c0, getD_c1, getD_c2, true_or, if_true]
  rw [show (⟨memFresh S, 5 + 3⟩ : Storage).mem.length + 1 = S + 1 from by
    dsimp only; omega]
  rw [hbl]
  dsimp only
  rw [if_pos (by omega : 3 + (S - 8) ≥ 7)]
  rw [show 5 + 3 - 3 = 5 from rfl]
  rw [show 3 + (S - 8) - 7 = S - 12 from by omega]

set_option maxHeartbeats 2000000 in
/-- `frogfs_open` of a non-existing record on a freshly formatted medium:
the record is created with its `normal+size(0)` header at offset 5 and the
directory slot set to `(offset, work_reg_1, work_reg_2, write_offset) =
(5, S - 12, 0, 8)`. -/
theorem open_fresh (S q r : Nat) (hS : 12 ≤ S) (hr : r < 32) :
    frogfs_open ⟨ramFresh, ⟨memFresh S, q⟩⟩ r =
      (Ferr.ok, ⟨ramFresh.set r ⟨5, S - 12, 0, 8⟩,
        ⟨magicBytes ++ ([r + 1, 128, 0] ++ List.replicate (S - 8) 0), 8⟩⟩) := by
  have hw : storage_write ⟨memFresh S, 5⟩ [(r + 1) % 256, 128, 0] =
      (Ferr.ok, ⟨magicBytes ++ ([r + 1, 128, 0] ++ List.replicate (S - 8) 0), 8⟩) := by
    have h2 := storage_write_at magicBytes (List.replicate (S - 5) 0)
      [(r + 1) % 256, 128, 0] (by simp; omega)
    rw [show magicBytes.length = 5 from rfl] at h2
    rw [show ([(r + 1) % 256, 128, 0] : List Nat).length = 3 from rfl] at h2
    rw [show ([(r + 1) % 256, 128, 0].map (fun b => b % 256)) = [r + 1, 128, 0] from by
      simp [Nat.mod_eq_of_lt (show r + 1 < 256 from by omega)]] at h2
    rw [List.drop_replicate] at h2
    rw [show S - 5 - 3 = S - 8 from by omega] at h2
    exact h2
  simp only [frogfs_open, FROGFS_MAX_RECORD_COUNT, ramFresh,
    FROGFS_RECORD_INDEX_OFFSET, FROGFS_RECORD_DATA_SIZE, Nat.one_mul]
  rw [if_pos hr]
  rw [getD_default_of_replicate r hr]
  rw [if_neg (by decide : ¬ (default : FRec).offset > 0)]
  rw [find_fresh S q _ _ _ (by omega)]
  dsimp only
  rw [if_pos rfl]
  simp only [storage_seek, if_true]
  rw [hw]
  rfl

/-! ### Claim C9 -/

/-- Claim C9, counterexample: on a freshly formatted 16-byte medium,
`frogfs_erase 0` does not return `OK` and does not leave
`directory[0].offset = 0`: it returns `NOT_READABLE` and leaves the
newly created record allocated at offset 5. -/
theorem c9_counterexample :
    (frogfs_erase ⟨ramFresh, ⟨memFresh 16, 0⟩⟩ 0).1 = Ferr.notReadable ∧
    ((frogfs_erase ⟨ramFresh, ⟨memFresh 16, 0⟩⟩ 0).2.ram.getD 0 default).offset = 5 := by
  decide

/-- Claim C9, amended: `frogfs_erase r` on a missing record (here: any
record on a freshly formatted medium of size `S ≥ 12`) first creates the
record via `frogfs_open` — the `normal+size(0)` header is written into the
hole at offset 5 — but then returns `NOT_READABLE` instead of `OK`:
`frogfs_open` leaves `write_offset = 8 ≠ 0` on the new slot and
`frogfs_traverse` refuses any record that is open for writing.  The
directory slot keeps `offset = 5 ≠ 0`, so the freshly created empty record
stays allocated on the medium and in the directory. -/
theorem c9_amended (S q r : Nat) (hS : 12 ≤ S) (hr : r < 32) :
    frogfs_erase ⟨ramFresh, ⟨memFresh S, q⟩⟩ r =
      (Ferr.notReadable, ⟨ramFresh.set r ⟨5, S - 12, 0, 8⟩,
        ⟨magicBytes ++ ([r + 1, 128, 0] ++ List.replicate (S - 8) 0), 8⟩⟩) := by
  have hset : ((ramFresh.set r ⟨5, S - 12, 0, 8⟩).getD r default) = ⟨5, S - 12, 0, 8⟩ :=
    getD_set_self _ r _ (by simp [ramFresh, FROGFS_MAX_RECORD_COUNT]; omega)
  have htr : frogfs_traverse ⟨ramFresh.set r ⟨5, S - 12, 0, 8⟩,
      ⟨magicBytes ++ ([r + 1, 128, 0] ++ List.replicate (S - 8) 0), 8⟩⟩ r false [] 0 true =
      (Ferr.notReadable, ⟨ramFresh.set r ⟨5, S - 12, 0, 8⟩,
        ⟨magicBytes ++ ([r + 1, 128, 0] ++ List.replicate (S - 8) 0), 8⟩⟩, [], 0) := by
    simp only [frogfs_traverse, FROGFS_MAX_RECORD_COUNT, FROGFS_MAX_RECORD_SIZE]
    rw [if_pos (⟨hr, by omega⟩ : r < 32 ∧ (0 : Nat) ≤ 32768)]
    rw [hset]
    rw [if_pos (by simp : ((⟨5, S - 12, 0, 8⟩ : FRec).write_offset ≠ 0))]
  simp only [frogfs_erase]
  rw [open_fresh S q r hS hr]
  dsimp only
  rw [if_pos rfl]
  rw [htr]
  dsimp only
  rw [if_neg (by decide : ¬ (Ferr.notReadable = Ferr.ok))]

/-- Claim C9, witness for the amended theorem at `S = 20`, `r = 3`. -/
theorem c9_amended_witness :
    frogfs_erase ⟨ramFresh, ⟨memFresh 20, 7⟩⟩ 3 =
      (Ferr.notReadable, ⟨ramFresh.set 3 ⟨5, 20 - 12, 0, 8⟩,
        ⟨magicBytes ++ ([3 + 1, 128, 0] ++ List.replicate (20 - 8) 0), 8⟩⟩) :=
  c9_amended 20 7 3 (by decide) (by decide)

/-! ### Claim C1: stage lemmas for the contiguous write-read pipeline -/

theorem writeLoop_succ (record : Nat) (data : List Nat) (size fuel : Nat)
    (fs : FS) (written : Nat) (update : Bool) (rv : Ferr) :
    writeLoop record data size (fuel + 1) fs written update rv =
      (let rc := fs.ram.getD record default
       let rsk := storage_seek fs.st ((rc.write_offset + rc.work_reg_2) % 65536)
       let fs := (⟨fs.ram, rsk.2⟩ : FS)
       if written ≥ size then
         (Ferr.ok, updateBlock record fs)
       else if rc.work_reg_2 < rc.work_reg_1 then
         let ts0 := rc.work_reg_1 - rc.work_reg_2
         let ts1 := if size < ts0 then size else ts0
         let ts := if written ≤ ts1 then ts1 - written else ts1
         if ts > 0 then
           let rw := storage_write fs.st ((data.drop written).take ts)
           if rw.1 ≠ Ferr.ok then
             (rw.1, updateBlock record ⟨fs.ram, rw.2⟩)
           else
             let rc2 := { rc with work_reg_2 := rc.work_reg_2 + ts }
             let fs2 : FS := ⟨fs.ram.set record rc2, rw.2⟩
             let update2 := update || decide (rc2.work_reg_2 ≥ rc2.work_reg_1)
             let fs3 := if update2 then updateBlock record fs2 else fs2
             writeLoop record data size fuel fs3 (written + ts) update2 rw.1
         else (Ferr.ioError, fs)
       else
         let rf := frogfs_find_contiguous_space fs.st 0 0 0
         if rf.1 = Ferr.ok then
           let ss := rf.2.2.1
           let w := [(FROGFS_RECORD_INDEX_OFFSET record % 256) ||| (FROGFS_RECORD_TYPE_FRAGMENT * 128),
                     (FROGFS_RECORD_DATA_POINTER * 128) ||| (ss / 256 % 256), ss % 256]
           let rs := storage_seek rf.2.1 ((rc.work_reg_1 + rc.write_offset) % 65536)
           let rw := if rs.1 = Ferr.ok then storage_write rs.2 w else (rs.1, rs.2)
           let rc2 := { rc with write_offset := rf.2.2.2.1, work_reg_1 := rf.2.2.2.2,
                                 work_reg_2 := 0 }
           let fs2 : FS := ⟨fs.ram.set record rc2, rw.2⟩
           let fs3 := updateBlock record fs2
           writeLoop record data size fuel fs3 written true rw.1
         else
           let fs2 : FS := ⟨fs.ram, rf.2.1⟩
           let fs3 := if update then updateBlock record fs2 else fs2
           (Ferr.nospace, fs3)) := rfl

theorem traverseLoop_succ (record : Nat) (hasBuf erase : Bool) (fuel : Nat)
    (fs : FS) (buf : List Nat) (eff size : Nat) (rv : Ferr) :
    traverseLoop record hasBuf erase (fuel + 1) fs buf eff size rv =
      (let r := traverseStep record hasBuf erase fs buf eff size rv
       let fs2 := r.1.1
       let buf2 := r.1.2.1
       let eff2 := r.1.2.2.1
       let size2 := r.1.2.2.2.1
       let rv2 := r.1.2.2.2.2
       if eff2 < size2 ∧ r.2.1 = false ∧ r.2.2 = false then
         traverseLoop record hasBuf erase fuel fs2 buf2 eff2 size2 rv2
       else (rv2, fs2, buf2, eff2)) := rfl

theorem map_mod_eq_self (l : List Nat) (h : ∀ b ∈ l, b < 256) :
    l.map (fun b => b % 256) = l := by
  induction l with
  | nil => rfl
  | cons a t ih =>
    simp only [List.map_cons]
    rw [Nat.mod_eq_of_lt (h a (by simp))]
    rw [ih (fun b hb => h b (by simp [hb]))]

theorem or_lt_256 (a b : Nat) (ha : a < 256) (hb : b < 256) : a ||| b < 256 :=
  Nat.or_lt_two_pow (show a < 2 ^ 8 from ha) (show b < 2 ^ 8 from hb)

/-- The medium contents after `data` has been written into the record
created at offset 5: superblock, the patched `normal+size(|data|)` header,
the data bytes, then the untouched zero tail. -/
def memW (S r : Nat) (data : List Nat) : List Nat :=
  magicBytes ++ ([r + 1, 128 ||| (data.length / 256 % 256), data.length % 256] ++
    (data ++ List.replicate (S - 8 - data.length) 0))

set_option maxRecDepth 8000 in
set_option maxHeartbeats 2000000 in
/-- `updateBlock` on a record whose slot sits at offset 5 with
`write_offset = 8`: the 3-byte header at offset 5 is re-read and rewritten
with the slot's `work_reg_2` as the size payload. -/
theorem updateBlock_eq (ram : List FRec) (record w1 w2 B0 B1 B2 : Nat)
    (T : List Nat) (p : Nat)
    (hrc : ram.getD record default = ⟨5, w1, w2, 8⟩)
    (hB0 : B0 < 256) (hB1 : B1 < 256) (hB2 : B2 < 256) :
    updateBlock record ⟨ram, ⟨magicBytes ++ ([B0, B1, B2] ++ T), p⟩⟩ =
      ⟨ram, ⟨magicBytes ++ ([B0, (B1 &&& 128) ||| (w2 / 256 % 256), w2 % 256] ++ T), 8⟩⟩ := by
  have hr3 : storage_read ⟨magicBytes ++ ([B0, B1, B2] ++ T), 5⟩ 3 =
      (Ferr.ok, ⟨magicBytes ++ ([B0, B1, B2] ++ T), 8⟩, [B0, B1, B2]) := by
    have h1 := storage_read_at magicBytes ([B0, B1, B2] ++ T) 3 (by simp)
    rw [show magicBytes.length = 5 from rfl] at h1
    rw [show (([B0, B1, B2] ++ T).take 3) = [B0, B1, B2] from by
      have h2 := take_app_self [B0, B1, B2] T
      rw [show ([B0, B1, B2] : List Nat).length = 3 from rfl] at h2
      exact h2] at h1
    rw [show ([B0, B1, B2].map (fun b => b % 256)) = [B0, B1, B2] from
      map_mod_eq_self _ (by
        intro b hb
        simp only [List.mem_cons, List.not_mem_nil, or_false] at hb
        rcases hb with h | h | h <;> omega)] at h1
    exact h1
  have hn1 : (B1 &&& 128) ||| (w2 / 256 % 256) < 256 :=
    or_lt_256 _ _ (by have h : B1 &&& 128 ≤ B1 := Nat.and_le_left; omega)
      (by have h := Nat.mod_lt (w2 / 256) (show 0 < 256 from by omega); omega)
  have hwr : storage_write ⟨magicBytes ++ ([B0, B1, B2] ++ T), 5⟩
      [B0, (B1 &&& 128) ||| (w2 / 256 % 256), w2 % 256] =
      (Ferr.ok, ⟨magicBytes ++ ([B0, (B1 &&& 128) ||| (w2 / 256 % 256), w2 % 256] ++ T), 8⟩) := by
    have h1 := storage_write_at magicBytes ([B0, B1, B2] ++ T)
      [B0, (B1 &&& 128) ||| (w2 / 256 % 256), w2 % 256] (by simp)
    rw [show magicBytes.length = 5 from rfl] at h1
    rw [show ([B0, (B1 &&& 128) ||| (w2 / 256 % 256), w2 % 256].map (fun b => b % 256)) =
        [B0, (B1 &&& 128) ||| (w2 / 256 % 256), w2 % 256] from
      map_mod_eq_self _ (by
        intro b hb
        simp only [List.mem_cons, List.not_mem_nil, or_false] at hb
        have hw2 := Nat.mod_lt w2 (show 0 < 256 from by omega)
        rcases hb with h | h | h <;> omega)] at h1
    rw [show ([B0, (B1 &&& 128) ||| (w2 / 256 % 256), w2 % 256] : List Nat).length = 3
      from rfl] at h1
    rw [show (([B0, B1, B2] ++ T).drop 3) = T from by
      have h2 := drop_app_self [B0, B1, B2] T
      rw [show ([B0, B1, B2] : List Nat).length = 3 from rfl] at h2
      exact h2] at h1
    exact h1
  unfold updateBlock
  dsimp only [storage_seek]
  rw [hrc]
  dsimp only
  rw [show (8 + 65533) % 65536 = 5 from by norm_num]
  rw [hr3]
  dsimp only
  rw [if_pos rfl]
  simp only [getD_c0, getD_c1]
  rw [hwr]

theorem ramW_getD (S r w2 : Nat) (hr : r < 32) :
    (ramFresh.set r ⟨5, S - 12, w2, 8⟩).getD r default = ⟨5, S - 12, w2, 8⟩ :=
  getD_set_self _ r _ (by simp only [ramFresh, FROGFS_MAX_RECORD_COUNT,
    List.length_replicate]; omega)

/-- Bounded bitwise fact used for the second header patch: re-patching an
already patched size byte is the identity. -/
theorem or_and_or_128 : ∀ x < 129, (((128 ||| x) &&& 128) ||| x) = 128 ||| x := by
  decide

/-- The final iteration of the write loop: everything is written, so the
loop stops and patches the header with the accumulated `work_reg_2`. -/
theorem writeLoop_finish (r fuel p S : Nat) (data : List Nat) (B1 B2 : Nat)
    (u : Bool) (rv : Ferr) (hr : r < 32) (hlen : data.length ≤ 32768)
    (hB1 : B1 < 256) (hB2 : B2 < 256) :
    writeLoop r data data.length (fuel + 1)
      ⟨ramFresh.set r ⟨5, S - 12, data.length, 8⟩,
       ⟨magicBytes ++ ([r + 1, B1, B2] ++ (data ++ List.replicate (S - 8 - data.length) 0)), p⟩⟩
      data.length u rv =
    (Ferr.ok, ⟨ramFresh.set r ⟨5, S - 12, data.length, 8⟩,
      ⟨magicBytes ++ ([r + 1, (B1 &&& 128) ||| (data.length / 256 % 256), data.length % 256] ++
        (data ++ List.replicate (S - 8 - data.length) 0)), 8⟩⟩) := by
  rw [writeLoop_succ]
  dsimp only [storage_seek]
  rw [ramW_getD S r data.length hr]
  dsimp only
  rw [if_pos (Nat.le_refl data.length)]
  rw [updateBlock_eq _ r (S - 12) data.length (r + 1) B1 B2
    (data ++ List.replicate (S - 8 - data.length) 0) _
    (ramW_getD S r data.length hr) (by omega) hB1 hB2]

set_option maxRecDepth 8000 in
set_option maxHeartbeats 4000000 in
/-- `frogfs_write` of `data` into the record freshly created at offset 5:
one data extent is written at offset 8 and the header at offset 5 is
patched to `normal+size(|data|)` — the size byte is `128 ||| (|data| / 256
% 256)`, which silently truncates `|data| = 32768` to size 0. -/
theorem write_fresh (S q r : Nat) (data : List Nat)
    (hS : data.length + 12 ≤ S) (hr : r < 32) (hlen : data.length ≤ 32768)
    (hb : ∀ b ∈ data, b < 256) :
    frogfs_write ⟨ramFresh.set r ⟨5, S - 12, 0, 8⟩,
        ⟨magicBytes ++ ([r + 1, 128, 0] ++ List.replicate (S - 8) 0), q⟩⟩ r data data.length =
      (Ferr.ok, ⟨ramFresh.set r ⟨5, S - 12, data.length, 8⟩, ⟨memW S r data, 8⟩⟩) := by
  have hml : (magicBytes ++ ([r + 1, 128, 0] ++ List.replicate (S - 8) 0)).length = S := by
    simp only [List.length_append, List.length_cons, List.length_nil, List.length_replicate,
      show magicBytes.length = 5 from rfl]
    omega
  have hdiv : data.length / 256 ≤ 128 := by
    have h1 : data.length / 256 ≤ 32768 / 256 := Nat.div_le_div_right hlen
    omega
  unfold frogfs_write
  dsimp only [FROGFS_MAX_RECORD_COUNT, FROGFS_MAX_RECORD_SIZE]
  rw [if_pos ⟨hr, hlen⟩]
  rw [ramW_getD S r 0 hr]
  dsimp only
  rw [if_neg (by decide : ¬ ((8 : Nat) = 0))]
  rw [hml]
  rw [show S + data.length + 8 = (S + data.length + 7) + 1 from by omega]
  rw [writeLoop_succ]
  dsimp only [storage_seek]
  rw [ramW_getD S r 0 hr]
  dsimp only
  rw [show (8 + 0) % 65536 = 8 from by norm_num]
  rcases Nat.eq_zero_or_pos data.length with hl0 | hl1
  · have hdnil : data = [] := List.eq_nil_of_length_eq_zero hl0
    subst hdnil
    rw [if_pos (by simp : ([] : List Nat).length ≤ 0)]
    rw [updateBlock_eq _ r (S - 12) 0 (r + 1) 128 0
      (List.replicate (S - 8) 0) 8 (ramW_getD S r 0 hr) (by omega) (by omega) (by omega)]
    simp only [memW]
    rfl
  · rw [if_neg (by omega : ¬ (0 ≥ data.length))]
    rw [if_pos (by omega : 0 < S - 12)]
    rw [Nat.sub_zero]
    rw [show (if data.length < S - 12 then data.length else S - 12) = data.length from by
      split <;> omega]
    rw [if_pos (Nat.zero_le data.length)]
    rw [Nat.sub_zero]
    rw [if_pos hl1]
    rw [List.drop_zero, List.take_length]
    have hw1 : storage_write
        ⟨magicBytes ++ ([r + 1, 128, 0] ++ List.replicate (S - 8) 0), 8⟩ data =
        (Ferr.ok, ⟨magicBytes ++ ([r + 1, 128, 0] ++
          (data ++ List.replicate (S - 8 - data.length) 0)), 8 + data.length⟩) := by
      have h1 := storage_write_at (magicBytes ++ [r + 1, 128, 0])
        (List.replicate (S - 8) 0) data (by simp only [List.length_replicate]; omega)
      rw [show (magicBytes ++ [r + 1, 128, 0] : List Nat).length = 8 from by
        simp only [List.length_append, List.length_cons, List.length_nil,
          show magicBytes.length = 5 from rfl]] at h1
      rw [map_mod_eq_self data hb] at h1
      rw [List.drop_replicate] at h1
      rw [List.append_assoc, List.append_assoc] at h1
      exact h1
    rw [hw1]
    dsimp only
    rw [if_neg (by simp : ¬ (Ferr.ok ≠ Ferr.ok))]
    simp only [Nat.zero_add]
    rw [List.set_set]
    rw [Bool.false_or]
    rcases Nat.lt_or_ge data.length (S - 12) with hlt | hge
    · rw [show (decide (data.length ≥ S - 12)) = false from by
        rw [decide_eq_false_iff_not]; omega]
      rw [if_neg (by decide : ¬ (false = true))]
      rw [show S + data.length + 7 = (S + data.length + 6) + 1 from by omega]
      rw [writeLoop_finish r _ _ S data 128 0 false Ferr.ok hr hlen (by omega) (by omega)]
      simp only [memW]
      rw [show ((128 : Nat) &&& 128) = 128 from rfl]
    · rw [show (decide (data.length ≥ S - 12)) = true from by
        rw [decide_eq_true_eq]; omega]
      rw [if_pos rfl]
      rw [updateBlock_eq _ r (S - 12) data.length (r + 1) 128 0
        (data ++ List.replicate (S - 8 - data.length) 0) _
        (ramW_getD S r data.length hr) (by omega) (by omega) (by omega)]
      rw [show ((128 : Nat) &&& 128) = 128 from rfl]
      rw [show S + data.length + 7 = (S + data.length + 6) + 1 from by omega]
      have hq1 : data.length / 256 % 256 < 256 := Nat.mod_lt _ (by omega)
      have hq2 : data.length % 256 < 256 := Nat.mod_lt _ (by omega)
      rw [writeLoop_finish r _ _ S data (128 ||| (data.length / 256 % 256))
        (data.length % 256) true Ferr.ok hr hlen
        (or_lt_256 _ _ (by omega) hq1) hq2]
      rw [show ((128 ||| (data.length / 256 % 256)) &&& 128) ||| (data.length / 256 % 256)
          = 128 ||| (data.length / 256 % 256) from
        or_and_or_128 _ (by rw [Nat.mod_eq_of_lt (by omega)]; omega)]
      simp only [memW]

/-- `frogfs_close` after the write: the slot's registers are reset, the
offset is kept. -/
theorem close_after_write (S r w2 : Nat) (hr : r < 32) :
    frogfs_close (ramFresh.set r ⟨5, S - 12, w2, 8⟩) r =
      (Ferr.ok, ramFresh.set r ⟨5, 0, 0, 0⟩) := by
  unfold frogfs_close
  dsimp only [FROGFS_MAX_RECORD_COUNT]
  rw [if_pos hr]
  rw [ramW_getD S r w2 hr]
  dsimp only
  rw [if_pos (by omega : (8 : Nat) > 0)]
  rw [List.set_set]

/-- Re-opening an existing closed record: the slot is untouched (its
work registers are already zero) and the storage is untouched. -/
theorem open_existing (r : Nat) (st : Storage) (hr : r < 32) :
    frogfs_open ⟨ramFresh.set r ⟨5, 0, 0, 0⟩, st⟩ r =
      (Ferr.ok, ⟨ramFresh.set r ⟨5, 0, 0, 0⟩, st⟩) := by
  have hset : (ramFresh.set r ⟨5, 0, 0, 0⟩).getD r default = ⟨5, 0, 0, 0⟩ :=
    getD_set_self _ r _ (by simp only [ramFresh, FROGFS_MAX_RECORD_COUNT,
      List.length_replicate]; omega)
  unfold frogfs_open
  dsimp only [FROGFS_MAX_RECORD_COUNT]
  rw [if_pos hr]
  rw [hset]
  dsimp only
  rw [if_pos (by omega : (5 : Nat) > 0)]
  rw [List.set_set]

theorem memW_length (S r : Nat) (data : List Nat) (h : data.length + 8 ≤ S) :
    (memW S r data).length = S := by
  simp only [memW, List.length_append, List.length_cons, List.length_nil,
    List.length_replicate, show magicBytes.length = 5 from rfl]
  omega

/-- Decoding the size byte written by the header patch recovers the high
size bits. -/
theorem pointer_decode : ∀ x < 128, (128 ||| x) % 256 % 128 = x := by
  decide

theorem ram0_getD (r : Nat) (hr : r < 32) :
    (ramFresh.set r ⟨5, 0, 0, 0⟩).getD r default = ⟨5, 0, 0, 0⟩ :=
  getD_set_self _ r _ (by simp only [ramFresh, FROGFS_MAX_RECORD_COUNT,
    List.length_replicate]; omega)

theorem ramR_getD (r a b c : Nat) (hr : r < 32) :
    (ramFresh.set r ⟨5, a, b, c⟩).getD r default = ⟨5, a, b, c⟩ :=
  getD_set_self _ r _ (by simp only [ramFresh, FROGFS_MAX_RECORD_COUNT,
    List.length_replicate]; omega)

/-- Reading the patched header at offset 5. -/
theorem read_hdr_memW (S r : Nat) (data : List Nat)
    (hS : data.length + 12 ≤ S) (hr : r < 32) :
    storage_read ⟨memW S r data, 5⟩ 3 =
      (Ferr.ok, ⟨memW S r data, 8⟩,
        [r + 1, 128 ||| (data.length / 256 % 256), data.length % 256]) := by
  have hq1 : data.length / 256 % 256 < 256 := Nat.mod_lt _ (by omega)
  have hq2 : data.length % 256 < 256 := Nat.mod_lt _ (by omega)
  have h1 := storage_read_at magicBytes
    ([r + 1, 128 ||| (data.length / 256 % 256), data.length % 256] ++
      (data ++ List.replicate (S - 8 - data.length) 0)) 3 (by simp)
  rw [show magicBytes.length = 5 from rfl] at h1
  have h2 := take_app_self
    [r + 1, 128 ||| (data.length / 256 % 256), data.length % 256]
    (data ++ List.replicate (S - 8 - data.length) 0)
  rw [show ([r + 1, 128 ||| (data.length / 256 % 256), data.length % 256] :
    List Nat).length = 3 from rfl] at h2
  rw [h2] at h1
  rw [map_mod_eq_self _ (by
    intro b hbm
    simp only [List.mem_cons, List.not_mem_nil, or_false] at hbm
    have ho := or_lt_256 128 (data.length / 256 % 256) (by omega) hq1
    rcases hbm with h | h | h <;> omega)] at h1
  exact h1

/-- Iteration 1 of the read traversal: the primary header is parsed and
the per-record registers are initialised with the stored size. -/
theorem read_step1 (S q r eff size : Nat) (data buf : List Nat)
    (hS : data.length + 12 ≤ S) (hr : r < 32) (hlen : data.length ≤ 32767) :
    traverseStep r true false ⟨ramFresh.set r ⟨5, 0, 0, 0⟩, ⟨memW S r data, q⟩⟩
        buf eff size Ferr.ioError =
      ((⟨ramFresh.set r ⟨5, 8, data.length, 0⟩, ⟨memW S r data, 8⟩⟩,
        buf, eff, size, Ferr.ok), false, false) := by
  unfold traverseStep
  rw [ram0_getD r hr]
  dsimp only
  rw [if_neg (by simp : ¬ ((0 : Nat) > 0 ∧ (0 : Nat) = 65535))]
  rw [if_neg (by simp : ¬ ((0 : Nat) > 0))]
  unfold traverseInitStep
  dsimp only [storage_seek]
  rw [ram0_getD r hr]
  dsimp only
  rw [if_pos rfl]
  rw [read_hdr_memW S r data hS hr]
  dsimp only
  rw [if_pos rfl]
  simp only [getD_c0, getD_c1, getD_c2]
  unfold FROGFS_RECORD_POINTER
  rw [pointer_decode (data.length / 256 % 256) (by omega)]
  rw [Nat.mod_mod_of_dvd _ (dvd_refl 256)]
  rw [show data.length / 256 % 256 * 256 + data.length % 256 = data.length from by omega]
  rw [List.set_set]
  rw [if_neg (by decide : ¬ (false = true))]

/-- Reading `m ≤ |data|` bytes of the data area at offset 8. -/
theorem read_data_memW (S r m : Nat) (data : List Nat)
    (hS : data.length + 12 ≤ S) (hm : m ≤ data.length) (hb : ∀ b ∈ data, b < 256) :
    storage_read ⟨memW S r data, 8⟩ m =
      (Ferr.ok, ⟨memW S r data, 8 + m⟩, data.take m) := by
  have h1 := storage_read_at
    (magicBytes ++ [r + 1, 128 ||| (data.length / 256 % 256), data.length % 256])
    (data ++ List.replicate (S - 8 - data.length) 0) m
    (by simp only [List.length_append, List.length_replicate]; omega)
  rw [show (magicBytes ++ [r + 1, 128 ||| (data.length / 256 % 256),
      data.length % 256] : List Nat).length = 8 from by
    simp only [List.length_append, List.length_cons, List.length_nil,
      show magicBytes.length = 5 from rfl]] at h1
  rw [List.take_append_of_le_length hm] at h1
  rw [List.map_take, map_mod_eq_self data hb] at h1
  exact h1

/-- Iteration 2 of the read traversal: `min(size, work_reg_2)` data bytes
are copied into the caller's buffer. -/
theorem read_step2 (S r n : Nat) (data buf : List Nat)
    (hS : data.length + 12 ≤ S) (hr : r < 32) (hlen : data.length ≤ 32767)
    (hn : n ≤ 32768) (hb : ∀ b ∈ data, b < 256) :
    traverseStep r true false ⟨ramFresh.set r ⟨5, 8, data.length, 0⟩,
        ⟨memW S r data, 8⟩⟩ buf 0 n Ferr.ok =
      ((⟨ramFresh.set r ⟨5, 8 + min n data.length,
          if data.length - min n data.length = 0 then 65535
          else data.length - min n data.length, 0⟩,
        ⟨memW S r data, 8 + min n data.length⟩⟩,
        storeAt buf 0 (data.take (min n data.length)),
        min n data.length, n, Ferr.ok), false, false) := by
  unfold traverseStep
  rw [ramR_getD r 8 data.length 0 hr]
  dsimp only
  rw [if_neg (by omega : ¬ ((8 : Nat) > 0 ∧ data.length = 65535))]
  rw [if_pos (by omega : (8 : Nat) > 0)]
  unfold traverseDataStep
  dsimp only [storage_seek]
  rw [ramR_getD r 8 data.length 0 hr]
  dsimp only
  rw [if_neg (by simp : ¬ (Ferr.ok ≠ Ferr.ok))]
  rw [if_neg (by decide : ¬ (false = true))]
  rw [ite_lt_min]
  rw [if_pos (rfl : true = true)]
  rw [read_data_memW S r (min n data.length) data hS (by omega) hb]
  dsimp only
  rw [if_pos (rfl : true = true)]
  rw [if_neg (by simp : ¬ (Ferr.ok ≠ Ferr.ok))]
  rw [Nat.zero_add]
  rw [Nat.mod_eq_of_lt (by omega : min n data.length < 65536)]
  rw [List.set_set]

/-- Iteration 3 of the read traversal: the metadata word after the data is
all zero, its record index 255 differs from `r`, and the loop exits
cleanly. -/
theorem read_step3 (S p r n eff : Nat) (data buf : List Nat)
    (hS : data.length + 12 ≤ S) (hr : r < 32) :
    traverseStep r true false ⟨ramFresh.set r ⟨5, 8 + data.length, 65535, 0⟩,
        ⟨memW S r data, p⟩⟩ buf eff n Ferr.ok =
      ((⟨ramFresh.set r ⟨5, 8 + data.length, 65535, 0⟩,
        ⟨memW S r data, 8 + data.length + 3⟩⟩, buf, eff, n, Ferr.ok),
        false, true) := by
  have hrd : storage_read ⟨memW S r data, 8 + data.length⟩ 3 =
      (Ferr.ok, ⟨memW S r data, 8 + data.length + 3⟩, [0, 0, 0]) := by
    have h1 := storage_read_at
      ((magicBytes ++ [r + 1, 128 ||| (data.length / 256 % 256), data.length % 256]) ++ data)
      (List.replicate (S - 8 - data.length) 0) 3
      (by simp only [List.length_replicate]; omega)
    rw [show ((magicBytes ++ [r + 1, 128 ||| (data.length / 256 % 256),
        data.length % 256]) ++ data).length = 8 + data.length from by
      simp only [List.length_append, List.length_cons, List.length_nil,
        show magicBytes.length = 5 from rfl]
      try omega] at h1
    rw [List.take_replicate] at h1
    rw [show min 3 (S - 8 - data.length) = 3 from by omega] at h1
    rw [show (List.replicate 3 0).map (fun b => b % 256) = [0, 0, 0] from rfl] at h1
    exact h1
  unfold traverseStep
  rw [ramR_getD r (8 + data.length) 65535 0 hr]
  dsimp only
  rw [if_pos (by omega : (8 + data.length : Nat) > 0 ∧ (65535 : Nat) = 65535)]
  unfold traverseHeaderStep
  dsimp only [storage_seek]
  rw [ramR_getD r (8 + data.length) 65535 0 hr]
  dsimp only
  rw [hrd]
  dsimp only
  rw [if_neg (by simp : ¬ (Ferr.ok ≠ Ferr.ok))]
  simp only [getD_c0]
  rw [show FROGFS_RECORD_INDEX 0 = 255 from rfl]
  rw [if_pos (by omega : r ≠ 255)]

set_option maxRecDepth 8000 in
set_option maxHeartbeats 4000000 in
/-- `frogfs_read` of a closed record holding `data` (with `|data| ≤ 32767`)
returns OK, copies `data[0 .. min(n, |data|))` to the front of the caller's
buffer and reports `effective = min(n, |data|)`. -/
theorem read_fresh_written (S q r n : Nat) (data buf : List Nat)
    (hS : data.length + 12 ≤ S) (hr : r < 32) (hlen : data.length ≤ 32767)
    (hn : n ≤ 32768) (hb : ∀ b ∈ data, b < 256) :
    (frogfs_read ⟨ramFresh.set r ⟨5, 0, 0, 0⟩, ⟨memW S r data, q⟩⟩ r true buf n).1 =
        Ferr.ok ∧
    (frogfs_read ⟨ramFresh.set r ⟨5, 0, 0, 0⟩, ⟨memW S r data, q⟩⟩ r true buf n).2.2.1 =
        storeAt buf 0 (data.take (min n data.length)) ∧
    (frogfs_read ⟨ramFresh.set r ⟨5, 0, 0, 0⟩, ⟨memW S r data, q⟩⟩ r true buf n).2.2.2 =
        min n data.length := by
  unfold frogfs_read frogfs_traverse
  dsimp only [FROGFS_MAX_RECORD_COUNT, FROGFS_MAX_RECORD_SIZE]
  rw [if_pos ⟨hr, hn⟩]
  rw [ram0_getD r hr]
  dsimp only
  rw [if_neg (by simp : ¬ ((0 : Nat) ≠ 0))]
  rw [memW_length S r data (by omega)]
  rw [show S + n + 16 = (S + n + 15) + 1 from by omega]
  rw [traverseLoop_succ]
  dsimp only
  rw [read_step1 S q r 0 n data buf hS hr hlen]
  dsimp only
  by_cases hn0 : n = 0
  · subst hn0
    rw [if_neg (by simp : ¬ ((0 : Nat) < 0 ∧ false = false ∧ false = false))]
    refine ⟨rfl, ?_, ?_⟩
    · simp [storeAt]
    · simp
  · rw [if_pos ⟨by omega, rfl, rfl⟩]
    rw [show S + n + 15 = (S + n + 14) + 1 from by omega]
    rw [traverseLoop_succ]
    dsimp only
    rw [read_step2 S r n data buf hS hr hlen hn hb]
    dsimp only
    by_cases hcase : n ≤ data.length
    · rw [Nat.min_eq_left hcase]
      rw [if_neg (by omega : ¬ (n < n ∧ false = false ∧ false = false))]
      exact ⟨rfl, rfl, rfl⟩
    · rw [Nat.min_eq_right (by omega : data.length ≤ n)]
      rw [show data.length - data.length = 0 from by omega]
      rw [if_pos (rfl : (0 : Nat) = 0)]
      rw [if_pos ⟨by omega, rfl, rfl⟩]
      rw [show S + n + 14 = (S + n + 13) + 1 from by omega]
      rw [traverseLoop_succ]
      dsimp only
      rw [read_step3 S (8 + data.length) r n data.length data
        (storeAt buf 0 (data.take data.length)) hS hr]
      dsimp only
      rw [if_neg (by simp : ¬ (data.length < n ∧ false = false ∧ true = false))]
      exact ⟨rfl, rfl, rfl⟩

/-- The claim C1 pipeline: format, init, open, write the whole of `data`,
close, re-open, read `n` bytes into an `n`-byte zero buffer.  Returns the
seven stage statuses, the reported `effective_read` and the final caller
buffer. -/
def c1run (junk data : List Nat) (r n : Nat) :
    Ferr × Ferr × Ferr × Ferr × Ferr × Ferr × Ferr × Nat × List Nat :=
  let f0 := frogfs_format ⟨junk, 0⟩
  let i0 := frogfs_init ⟨[], f0.2⟩
  let o1 := frogfs_open i0.2 r
  let w0 := frogfs_write o1.2 r data data.length
  let c0 := frogfs_close w0.2.ram r
  let o2 := frogfs_open ⟨c0.2, w0.2.st⟩ r
  let rd := frogfs_read o2.2 r true (List.replicate n 0) n
  (f0.1, i0.1, o1.1, w0.1, c0.1, o2.1, rd.1, rd.2.2.2, rd.2.2.1)

set_option maxRecDepth 8000 in
set_option maxHeartbeats 4000000 in
/-- Claim C1, amended: for `|data| ≤ 32767` (not 32768) fitting on the
medium (`|data| + 12 ≤ |junk|`), every step of
format–init–open–write–close–open–read succeeds and the read returns
`effective = min(n, |data|)` with the first `effective` buffer bytes equal
to `data` and the rest of the buffer untouched. -/
theorem c1_amended (S r n : Nat) (junk data : List Nat)
    (hjunk : junk.length = S) (hr : r < 32) (hlen : data.length ≤ 32767)
    (hS : data.length + 12 ≤ S) (hn : n ≤ 32768) (hb : ∀ b ∈ data, b < 256) :
    c1run junk data r n =
      (Ferr.ok, Ferr.ok, Ferr.ok, Ferr.ok, Ferr.ok, Ferr.ok, Ferr.ok,
       min n data.length,
       data.take (min n data.length) ++ List.replicate (n - min n data.length) 0) := by
  obtain ⟨h1, h2, h3⟩ := read_fresh_written S 8 r n data (List.replicate n 0)
    hS hr hlen hn hb
  unfold c1run
  dsimp only
  rw [frogfs_format_spec junk 0 (by omega)]
  rw [hjunk]
  rw [show (magicBytes ++ List.replicate (S - 5) 0 : List Nat) = memFresh S from rfl]
  dsimp only
  rw [frogfs_init_fresh S 5 [] (by omega)]
  dsimp only
  rw [open_fresh S S r (by omega) hr]
  dsimp only
  rw [write_fresh S 8 r data hS hr (by omega) hb]
  dsimp only
  rw [close_after_write S r data.length hr]
  dsimp only
  rw [open_existing r ⟨memW S r data, 8⟩ hr]
  dsimp only
  rw [h1, h2, h3]
  simp only [storeAt, List.take_zero, List.nil_append, Nat.zero_add,
    List.length_take, List.drop_replicate]
  rw [Nat.min_eq_left (Nat.min_le_right n data.length)]

/-- Claim C1, witness for the amended theorem: a 16-byte medium, record 2,
payload `[7, 9]`, reading 5 bytes. -/
theorem c1_amended_witness :
    c1run (List.replicate 16 0) [7, 9] 2 5 =
      (Ferr.ok, Ferr.ok, Ferr.ok, Ferr.ok, Ferr.ok, Ferr.ok, Ferr.ok,
       min 5 ([7, 9] : List Nat).length,
       ([7, 9] : List Nat).take (min 5 ([7, 9] : List Nat).length) ++
         List.replicate (5 - min 5 ([7, 9] : List Nat).length) 0) :=
  c1_amended 16 2 5 (List.replicate 16 0) [7, 9] (by decide) (by decide)
    (by decide) (by decide) (by decide) (by decide)

/-- Iteration 1 of the read traversal for the boundary payload
`|data| = 32768`: the size byte `128 ||| 128` decodes back to size 0. -/
theorem read_bug_step1 (S q r eff size : Nat) (data buf : List Nat)
    (hS : data.length + 12 ≤ S) (hr : r < 32) (hlen : data.length = 32768) :
    traverseStep r true false ⟨ramFresh.set r ⟨5, 0, 0, 0⟩, ⟨memW S r data, q⟩⟩
        buf eff size Ferr.ioError =
      ((⟨ramFresh.set r ⟨5, 8, 0, 0⟩, ⟨memW S r data, 8⟩⟩,
        buf, eff, size, Ferr.ok), false, false) := by
  unfold traverseStep
  rw [ram0_getD r hr]
  dsimp only
  rw [if_neg (by simp : ¬ ((0 : Nat) > 0 ∧ (0 : Nat) = 65535))]
  rw [if_neg (by simp : ¬ ((0 : Nat) > 0))]
  unfold traverseInitStep
  dsimp only [storage_seek]
  rw [ram0_getD r hr]
  dsimp only
  rw [if_pos rfl]
  rw [read_hdr_memW S r data hS hr]
  dsimp only
  rw [if_pos rfl]
  simp only [getD_c0, getD_c1, getD_c2]
  rw [hlen]
  rw [show (128 ||| (32768 / 256 % 256) : Nat) = 128 from by decide]
  rw [show (32768 : Nat) % 256 = 0 from by decide]
  rw [show FROGFS_RECORD_POINTER (r + 1) 128 0 = 0 from by
    unfold FROGFS_RECORD_POINTER; decide]
  rw [List.set_set]
  rw [if_neg (by decide : ¬ (false = true))]

/-- Iteration 2 of the boundary read: `work_reg_2 = 0`, so a zero-byte
chunk is served and the block is immediately marked exhausted. -/
theorem read_bug_step2 (S r n : Nat) (data buf : List Nat)
    (hS : data.length + 12 ≤ S) (hr : r < 32) (hn : n ≤ 32768) :
    traverseStep r true false ⟨ramFresh.set r ⟨5, 8, 0, 0⟩,
        ⟨memW S r data, 8⟩⟩ buf 0 n Ferr.ok =
      ((⟨ramFresh.set r ⟨5, 8, 65535, 0⟩, ⟨memW S r data, 8⟩⟩,
        buf, 0, n, Ferr.ok), false, false) := by
  have hrd0 : storage_read ⟨memW S r data, 8⟩ 0 =
      (Ferr.ok, ⟨memW S r data, 8⟩, []) := by
    unfold storage_read
    rw [memW_length S r data (by omega)]
    rw [if_pos (by omega : 8 + 0 ≤ S)]
    simp only [List.take_zero, List.map_nil]
  unfold traverseStep
  rw [ramR_getD r 8 0 0 hr]
  dsimp only
  rw [if_neg (by simp : ¬ ((8 : Nat) > 0 ∧ (0 : Nat) = 65535))]
  rw [if_pos (by omega : (8 : Nat) > 0)]
  unfold traverseDataStep
  dsimp only [storage_seek]
  rw [ramR_getD r 8 0 0 hr]
  dsimp only
  rw [if_neg (by simp : ¬ (Ferr.ok ≠ Ferr.ok))]
  rw [if_neg (by decide : ¬ (false = true))]
  rw [if_neg (by omega : ¬ (n < 0))]
  rw [if_pos (rfl : true = true)]
  rw [hrd0]
  dsimp only
  rw [if_pos (rfl : true = true)]
  rw [if_neg (by simp : ¬ (Ferr.ok ≠ Ferr.ok))]
  rw [show storeAt buf 0 ([] : List Nat) = buf from by simp [storeAt]]
  rw [show ((0 : Nat) + 0) % 65536 = 0 from by norm_num]
  rw [if_pos (rfl : (0 : Nat) - 0 = 0)]
  rw [List.set_set]

/-- Iteration 3 of the boundary read: the traversal lands on the first
data byte 1, whose record index `(1 & ~0x80) + 0xFF` wraps to 0 = r, but
whose type bit is `normal`, so the loop exits with OK and `effective`
still 0. -/
theorem read_bug_step3 (S p n eff : Nat) (data buf : List Nat)
    (hS : data.length + 12 ≤ S) (hb : ∀ b ∈ data, b < 256)
    (ht : data.take 3 = [1, 1, 1]) :
    traverseStep 0 true false ⟨ramFresh.set 0 ⟨5, 8, 65535, 0⟩,
        ⟨memW S 0 data, p⟩⟩ buf eff n Ferr.ok =
      ((⟨ramFresh.set 0 ⟨5, 8, 65535, 0⟩, ⟨memW S 0 data, 8 + 3⟩⟩,
        buf, eff, n, Ferr.ok), false, true) := by
  have h3 : 3 ≤ data.length := by
    have hl := congrArg List.length ht
    simp only [List.length_take, List.length_cons, List.length_nil] at hl
    omega
  have hrd := read_data_memW S 0 3 data hS h3 hb
  rw [ht] at hrd
  unfold traverseStep
  rw [ramR_getD 0 8 65535 0 (by norm_num)]
  dsimp only
  rw [if_pos (by omega : (8 : Nat) > 0 ∧ (65535 : Nat) = 65535)]
  unfold traverseHeaderStep
  dsimp only [storage_seek]
  rw [ramR_getD 0 8 65535 0 (by norm_num)]
  dsimp only
  rw [hrd]
  dsimp only
  rw [if_neg (by simp : ¬ (Ferr.ok ≠ Ferr.ok))]
  simp only [getD_c0]
  rw [show FROGFS_RECORD_INDEX 1 = 0 from by decide]
  rw [if_neg (by decide : ¬ ((0 : Nat) ≠ 0))]
  rw [if_neg (by decide : ¬ (FROGFS_RECORD_TYPE 1 = FROGFS_RECORD_TYPE_FRAGMENT))]

set_option maxRecDepth 8000 in
set_option maxHeartbeats 4000000 in
/-- The complete boundary read: for a record whose stored payload has
length exactly 32768 and starts with bytes `1, 1, 1` (record 0), the read
returns OK with `effective_read = 0` and an untouched buffer. -/
theorem read_bug (S q n : Nat) (data buf : List Nat)
    (hS : data.length + 12 ≤ S) (hlen2 : data.length = 32768)
    (hn : n ≤ 32768) (hn1 : 1 ≤ n)
    (hb : ∀ b ∈ data, b < 256) (ht : data.take 3 = [1, 1, 1]) :
    frogfs_read ⟨ramFresh.set 0 ⟨5, 0, 0, 0⟩, ⟨memW S 0 data, q⟩⟩ 0 true buf n =
      (Ferr.ok, ⟨ramFresh.set 0 ⟨5, 8, 65535, 0⟩, ⟨memW S 0 data, 8 + 3⟩⟩,
        buf, 0) := by
  unfold frogfs_read frogfs_traverse
  dsimp only [FROGFS_MAX_RECORD_COUNT, FROGFS_MAX_RECORD_SIZE]
  rw [if_pos (⟨by norm_num, hn⟩ : (0 : Nat) < 32 ∧ n ≤ 32768)]
  rw [ram0_getD 0 (by norm_num)]
  dsimp only
  rw [if_neg (by simp : ¬ ((0 : Nat) ≠ 0))]
  rw [memW_length S 0 data (by omega)]
  rw [show S + n + 16 = (S + n + 15) + 1 from by omega]
  rw [traverseLoop_succ]
  dsimp only
  rw [read_bug_step1 S q 0 0 n data buf hS (by norm_num) hlen2]
  dsimp only
  rw [if_pos ⟨by omega, rfl, rfl⟩]
  rw [show S + n + 15 = (S + n + 14) + 1 from by omega]
  rw [traverseLoop_succ]
  dsimp only
  rw [read_bug_step2 S 0 n data buf hS (by norm_num) hn]
  dsimp only
  rw [if_pos ⟨by omega, rfl, rfl⟩]
  rw [show S + n + 14 = (S + n + 13) + 1 from by omega]
  rw [traverseLoop_succ]
  dsimp only
  rw [read_bug_step3 S 8 n 0 data buf hS hb ht]
  dsimp only
  rw [if_neg (by simp : ¬ ((0 : Nat) < n ∧ false = false ∧ true = false))]

set_option maxRecDepth 8000 in
set_option maxHeartbeats 4000000 in
/-- Claim C1, counterexample: the bound `|data| ≤ 32768` admitted by the
claim fails at the boundary.  On a 32781-byte medium, writing the
32768-byte payload `1, 1, 1, …` to record 0 reports OK at every step, but
the header's 15-bit size field wraps to 0, so the subsequent
`read(0, buf, 1)` returns OK with `effective = 0` instead of
`min(1, 32768) = 1`, and the buffer keeps its previous contents. -/
theorem c1_counterexample :
    c1run (List.replicate 32781 0) (List.replicate 32768 1) 0 1 =
      (Ferr.ok, Ferr.ok, Ferr.ok, Ferr.ok, Ferr.ok, Ferr.ok, Ferr.ok, 0,
       List.replicate 1 0) ∧
    (0 : Nat) ≠ min 1 (List.replicate 32768 1).length := by
  have hlenr : (List.replicate 32768 1 : List Nat).length = 32768 :=
    List.length_replicate 32768 1
  have hb : ∀ b ∈ (List.replicate 32768 1 : List Nat), b < 256 := by
    intro b hbm
    rw [List.eq_of_mem_replicate hbm]
    omega
  have ht : (List.replicate 32768 1 : List Nat).take 3 = [1, 1, 1] := by
    rw [List.take_replicate]
    rw [show min 3 32768 = 3 from by decide]
    rfl
  constructor
  · unfold c1run
    dsimp only
    rw [frogfs_format_spec (List.replicate 32781 0) 0
      (by simp only [List.length_replicate]; omega)]
    rw [show (List.replicate 32781 0 : List Nat).length = 32781 from
      List.length_replicate 32781 0]
    rw [show (magicBytes ++ List.replicate (32781 - 5) 0 : List Nat) =
      memFresh 32781 from rfl]
    dsimp only
    rw [frogfs_init_fresh 32781 5 [] (by omega)]
    dsimp only
    rw [open_fresh 32781 32781 0 (by omega) (by omega)]
    dsimp only
    rw [write_fresh 32781 8 0 (List.replicate 32768 1)
      (by rw [hlenr]; omega) (by omega) (by rw [hlenr]) hb]
    dsimp only
    rw [close_after_write 32781 0 (List.replicate 32768 1).length (by omega)]
    dsimp only
    rw [open_existing 0 ⟨memW 32781 0 (List.replicate 32768 1), 8⟩ (by omega)]
    dsimp only
    rw [read_bug 32781 8 1 (List.replicate 32768 1) (List.replicate 1 0)
      (by rw [hlenr]; omega) hlenr (by omega) (by omega) hb ht]
  · rw [hlenr]
    decide

end FrogFS
